import Mathlib

/-!
Verification of the nanoslurm status-resolution and metrics-aggregation
layer.  The Python sources (`src/nanoslurm/_slurm.py`, `job.py`,
`backend.py`) are shallowly embedded: pure string processing becomes Lean
functions on `List Char` / `String`, fallible operations return `Option`
(`none` = a raised Python exception where noted), and interaction with the
external SLURM tools is modelled by explicit environment records carrying
tool availability flags and captured stdout text.  All definitions are
structural so that concrete runs evaluate by `decide` / `rfl`.
-/

/-! ## Python string primitives -/

/-- ASCII whitespace as used by CPython `str.strip()` / `str.split()`:
space, tab, linefeed, carriage return, vertical tab, form feed. -/
def pyIsSpace (c : Char) : Bool :=
  c = ' ' || c = '\t' || c = '\n' || c = '\r' || c = '\x0b' || c = '\x0c'

/-- `s.lstrip()` on char lists. -/
def stripL (l : List Char) : List Char := l.dropWhile pyIsSpace

/-- `s.rstrip()` on char lists. -/
def stripR (l : List Char) : List Char := (l.reverse.dropWhile pyIsSpace).reverse

/-- `s.strip()` on char lists. -/
def pyStrip (l : List Char) : List Char := stripR (stripL l)

/-- Worker for `pySplitWs`; `acc` holds the current word reversed. -/
def pySplitWsAux : List Char → List Char → List (List Char)
  | [], acc => if acc = [] then [] else [acc.reverse]
  | c :: cs, acc =>
    if pyIsSpace c then
      if acc = [] then pySplitWsAux cs [] else acc.reverse :: pySplitWsAux cs []
    else pySplitWsAux cs (c :: acc)

/-- Python `s.split()` (no separator): split on whitespace runs, dropping
empty tokens. -/
def pySplitWs (l : List Char) : List (List Char) := pySplitWsAux l []

/-- Python `s.split(sep)` for a one-character separator: splits at every
occurrence, keeping empty tokens (`"".split("|") == [""]`). -/
def splitSepC (sep : Char) : List Char → List (List Char)
  | [] => [[]]
  | c :: cs =>
    if c = sep then [] :: splitSepC sep cs
    else
      match splitSepC sep cs with
      | [] => [[c]]
      | w :: ws => (c :: w) :: ws

/-- Python `s.splitlines()` for LF / CR / CRLF separated text (no trailing
empty line). -/
def splitlinesC : List Char → List (List Char)
  | [] => []
  | '\r' :: '\n' :: cs => [] :: splitlinesC cs
  | c :: cs =>
    if c = '\n' || c = '\r' then [] :: splitlinesC cs
    else
      match splitlinesC cs with
      | [] => [[c]]
      | w :: ws => (c :: w) :: ws

/-- `s.split(ch, 1)[0]`: the prefix of `l` before the first occurrence of
`ch` (all of `l` when `ch` is absent). -/
def takeUntilC (ch : Char) (l : List Char) : List Char :=
  l.takeWhile (fun c => c ≠ ch)

/-- `s.rstrip("*")`: drop every trailing `'*'`. -/
def rstripStarC (l : List Char) : List Char :=
  (l.reverse.dropWhile (fun c => c = '*')).reverse

/-- String wrappers used throughout: work on `String.data`. -/
def strSplitLines (s : String) : List String :=
  (splitlinesC s.data).map (fun l => String.mk l)

/-- Python `str.strip` on `String`. -/
def strStrip (s : String) : String := String.mk (pyStrip s.data)

/-! ## State normalizer (`_slurm.normalize_state`) -/

/-- Embedding of `_slurm.normalize_state`.

```python
token = state.strip().split()[0] if state else ""
token = token.split("+", 1)[0]
token = token.split("(", 1)[0]
token = token.rstrip("*")
return token
```

Returns `none` exactly when the Python code raises `IndexError`: the input
is non-empty but consists only of whitespace, so `"".split()` is `[]` and
`[0]` is out of range. -/
def normalize_state (state : String) : Option String :=
  (if state.data = [] then some ([] : List Char)
   else (pySplitWs (pyStrip state.data)).head?).map
    (fun token =>
      String.mk (rstripStarC (takeUntilC '(' (takeUntilC '+' token))))

/-! ## Table parser (`_slurm._table`) -/

/-- `line.split() if sep is None else line.split(sep)` from `_table`. -/
def pySplitParts (sep : Option Char) (line : List Char) : List (List Char) :=
  match sep with
  | none => pySplitWs line
  | some c => splitSepC c line

/-- Embedding of `_slurm._table`: the runner's captured stdout is passed in
as `out`; each line is split by `sep` (whitespace when absent), lines whose
token count differs from the key count are skipped, and each kept line is
zipped with the keys into a row (the Python dict comprehension
`{k: v for k, v in zip(keys, parts)}`, modelled as an association list —
the key lists used by the callers are duplicate-free). -/
def _table (out : String) (keys : List String) (sep : Option Char) :
    List (List (String × String)) :=
  (splitlinesC out.data).filterMap (fun line =>
    let parts := pySplitParts sep line
    if parts.length = keys.length then
      some (keys.zip (parts.map (fun p => String.mk p)))
    else none)

/-! ## Status resolution (job.py `_status` / `Job.status`, backend.py
`_squeue_status` / `_sacct_status` / `Job.status`) -/

/-- Python dict lookup `row.get(k)` on an association-list row. -/
def dget {α : Type} (d : List (String × α)) (k : String) : Option α :=
  (d.find? (fun p => p.1 == k)).map (fun p => p.2)

/-- Python exceptions that can escape status resolution. -/
inductive PyErr where
  | slurmUnavailable
  | indexError
deriving DecidableEq, Repr

/-- Environment for status queries: whether `squeue` / `sacct` are on
PATH, and the stdout captured from the per-job state query of each tool
(`squeue -j <id> -h -o %T` resp.
`sacct -j <id> -o State -n --parsable2 [-X]`).  An unavailable tool's
output field is never consulted. -/
structure SlurmEnv where
  squeueAvail : Bool
  sacctAvail : Bool
  squeueOut : Nat → String
  sacctOut : Nat → String

/-- The state-field rows the job-module resolver obtains from
`_squeue(fields=["state"], jobs=[job_id])`, i.e. `_table` applied to the
squeue output with keys `["state"]` and separator `"|"`; `_status` then
reads `r.get("state", "")` from each row. -/
def squeueStateRows (env : SlurmEnv) (jobId : Nat) : List String :=
  (_table (env.squeueOut jobId) ["state"] (some '|')).map
    (fun row => (dget row "state").getD "")

/-- Same for `_sacct(fields=["state"], jobs=[job_id], allocations=True)`. -/
def sacctStateRows (env : SlurmEnv) (jobId : Nat) : List String :=
  (_table (env.sacctOut jobId) ["state"] (some '|')).map
    (fun row => (dget row "state").getD "")

/-- The sacct loop of job.py `_status`: return the first row whose
normalized state token is non-empty; `IndexError` raised by
`normalize_state` on a whitespace-only state propagates. -/
def sacctFirstToken : List String → Except PyErr (Option String)
  | [] => Except.ok none
  | s :: rest =>
    match normalize_state s with
    | none => Except.error PyErr.indexError
    | some t => if t ≠ "" then Except.ok (some t) else sacctFirstToken rest

/-- The squeue step of job.py `_status`: when `squeue` is on PATH, query
its rows; a first row whose normalized token is non-empty is the result,
`IndexError` from `normalize_state` propagates, and everything else is
"no result" (`ok none`). -/
def squeueStep (env : SlurmEnv) (jobId : Nat) : Except PyErr (Option String) :=
  if env.squeueAvail then
    match squeueStateRows env jobId with
    | [] => Except.ok none
    | s :: _ =>
      match normalize_state s with
      | none => Except.error PyErr.indexError
      | some t => if t ≠ "" then Except.ok (some t) else Except.ok none
  else Except.ok none

/-- Embedding of job.py `_status` (lines 227–246).  The
`except SlurmUnavailableError: pass` handlers are dead in this model
because adapter availability always agrees with the preceding `_which`
guard; `IndexError` from `normalize_state` is NOT caught and propagates.
`Except.ok none` models Python's `return None`. -/
def _status (env : SlurmEnv) (jobId : Nat) : Except PyErr (Option String) :=
  match squeueStep env jobId with
  | Except.error e => Except.error e
  | Except.ok (some t) => Except.ok (some t)
  | Except.ok none =>
    if env.sacctAvail then sacctFirstToken (sacctStateRows env jobId)
    else Except.ok none

/-- Python `x or default` for `x : Optional[str]` (both `None` and `""`
are falsy). -/
def pyOrStr (x : Option String) (d : String) : String :=
  match x with
  | none => d
  | some t => if t = "" then d else t

/-- Embedding of job.py `Job.status` (lines 124–131): raise
`SlurmUnavailableError` when neither tool is on PATH, else
`_status(self.id) or "UNKNOWN"`. -/
def jobStatus (env : SlurmEnv) (jobId : Nat) : Except PyErr String :=
  if !(env.squeueAvail || env.sacctAvail) then
    Except.error PyErr.slurmUnavailable
  else
    match _status env jobId with
    | Except.error e => Except.error e
    | Except.ok r => Except.ok (pyOrStr r "UNKNOWN")

/-- Embedding of backend.py `_squeue_status` (lines 498–505): strips the
raw stdout, treats empty output as no row, and normalizes the first word
inline (`out.split()[0].split("+")[0].split("(")[0].rstrip("*")`). -/
def bk_squeue_status (env : SlurmEnv) (jobId : Nat) : Option String :=
  if !env.squeueAvail then none
  else
    let out := pyStrip (env.squeueOut jobId).data
    if out ≠ [] then
      match pySplitWs out with
      | w :: _ =>
        some (String.mk (rstripStarC (takeUntilC '(' (takeUntilC '+' w))))
      | [] => none  -- unreachable: `out` is non-empty after strip()
    else none

/-- The line scan of backend.py `_sacct_status`: the first non-blank line
wins.  NOTE the pipeline here is
`token.split()[0].split("+")[0].split("(")[0]` — there is no trailing
`.rstrip("*")`, unlike `_squeue_status` and `normalize_state`. -/
def bk_sacct_scan : List String → Option String
  | [] => none
  | line :: rest =>
    let token := pyStrip line.data
    if token ≠ [] then
      match pySplitWs token with
      | w :: _ => some (String.mk (takeUntilC '(' (takeUntilC '+' w)))
      | [] => none  -- unreachable: `token` is non-empty after strip()
    else bk_sacct_scan rest

/-- Embedding of backend.py `_sacct_status` (lines 508–516). -/
def bk_sacct_status (env : SlurmEnv) (jobId : Nat) : Option String :=
  if !env.sacctAvail then none
  else bk_sacct_scan (strSplitLines (env.sacctOut jobId))

/-- Embedding of backend.py `Job.status` (lines 154–164):
`s = _squeue_status(id); if not s: s = _sacct_status(id); s = s or
"UNKNOWN"` (`not s` is true for both `None` and `""`). -/
def bkJobStatus (env : SlurmEnv) (jobId : Nat) : Except PyErr String :=
  if !(env.squeueAvail || env.sacctAvail) then
    Except.error PyErr.slurmUnavailable
  else
    let s := bk_squeue_status env jobId
    let s2 := match s with
      | some t => if t = "" then bk_sacct_status env jobId else some t
      | none => bk_sacct_status env jobId
    Except.ok (pyOrStr s2 "UNKNOWN")

/-! ## Job.wait (job.py 159–168 / backend.py 192–201) -/

/-- `_TERMINAL` from job.py / backend.py. -/
def _TERMINAL : List String :=
  ["COMPLETED", "FAILED", "CANCELLED", "TIMEOUT", "PREEMPTED", "BOOT_FAIL",
   "NODE_FAIL"]

/-- `_RUNNINGISH` from job.py / backend.py. -/
def _RUNNINGISH : List String :=
  ["PENDING", "CONFIGURING", "RUNNING", "COMPLETING", "STAGE_OUT",
   "SUSPENDED", "RESV_DEL_HOLD"]

/-- Embedding of the `Job.wait` loop.  `statuses n` is the state observed
by the n-th status query of the run; `elapsed n` models
`time.time() - start` at the n-th timeout check (between consecutive
checks the code executes `time.sleep(poll_interval)`, so a real run
satisfies `elapsed (n+1) ≥ elapsed n + poll_interval`; that fact enters
the theorems as a hypothesis, mirroring the only way `poll_interval`
affects the loop).  `timeout = none` models `timeout=None`.  The result
pairs the returned state with the number of sleeps executed before the
return; `none` means the fuel bound was reached with the loop still
running. -/
def waitLoop (statuses : Nat → String) (elapsed : Nat → ℚ)
    (timeout : Option ℚ) : Nat → Nat → Option (String × Nat)
  | 0, _ => none
  | fuel + 1, n =>
    let s := statuses n
    if _TERMINAL.contains s then some (s, n)
    else
      match timeout with
      | some t =>
        if elapsed n > t then some (s, n)
        else waitLoop statuses elapsed timeout fuel (n + 1)
      | none => waitLoop statuses elapsed timeout fuel (n + 1)

/-- `Job.wait` started at iteration 0. -/
def jobWait (statuses : Nat → String) (elapsed : Nat → ℚ)
    (timeout : Option ℚ) (fuel : Nat) : Option (String × Nat) :=
  waitLoop statuses elapsed timeout fuel 0

/-! ## Integer formatting / parsing primitives -/

/-- Decimal digits of `n`, most significant first, via explicit fuel (the
fuel `n + 1` always suffices); models Python `str(n)` for a natural. -/
def natDigitsAux : Nat → Nat → List Char
  | 0, _ => []
  | fuel + 1, n =>
    if n < 10 then [Nat.digitChar n]
    else natDigitsAux fuel (n / 10) ++ [Nat.digitChar (n % 10)]

/-- Python `str(n)` for `n : Nat` (unpadded decimal). -/
def natStr (n : Nat) : List Char := natDigitsAux (n + 1) n

/-- Python `str(i)` for an integer. -/
def intStr (i : Int) : List Char :=
  match i with
  | Int.ofNat n => natStr n
  | Int.negSucc n => '-' :: natStr (n + 1)

/-- Numeric value of a digit string (most significant first). -/
def digitsVal (ds : List Char) : Nat :=
  ds.foldl (fun a c => 10 * a + (c.toNat - 48)) 0

/-- A non-empty all-digit string's value. -/
def pyIntNat (ds : List Char) : Option Nat :=
  if ds ≠ [] && ds.all Char.isDigit then some (digitsVal ds) else none

/-- Python `int(s)` on a decimal literal: surrounding whitespace is
stripped, an optional single sign precedes a non-empty digit run; anything
else raises `ValueError` (`none`).  (CPython additionally accepts
underscore digit grouping; no caller-relevant string uses it and it is not
modelled.) -/
def pyInt (s : String) : Option Int :=
  match pyStrip s.data with
  | '+' :: ds => (pyIntNat ds).map (fun n => (n : Int))
  | '-' :: ds => (pyIntNat ds).map (fun n => -(n : Int))
  | ds => (pyIntNat ds).map (fun n => (n : Int))

/-! ## submit (job.py 27–107 / backend.py 29–132) -/

/-- `a` is a prefix of `b` (Python `str.startswith`). -/
def isPrefixC : List Char → List Char → Bool
  | [], _ => true
  | _ :: _, [] => false
  | a :: as, b :: bs => a = b && isPrefixC as bs

/-- Python `s.replace("%j", repl)`: left-to-right, non-overlapping. -/
def replacePercentJ (repl : List Char) : List Char → List Char
  | '%' :: 'j' :: rest => repl ++ replacePercentJ repl rest
  | c :: rest => c :: replacePercentJ repl rest
  | [] => []

/-- Errors `submit` can raise. -/
inductive SubmitErr where
  | slurmUnavailable
  | fileNotFound
  | parseFailure (stdout stderr : String)
deriving DecidableEq, Repr

/-- The handle `submit` returns on success. -/
structure JobHandle where
  id : Int
  name : String
  user : String
  partition : String
  stdout_path : String
  stderr_path : String
deriving DecidableEq, Repr

/-- The sbatch stdout scan of `submit` (job.py 88–96 / backend.py 113–121):

```python
for line in out.splitlines():
    s = line.strip()
    if s.startswith("Submitted batch job "):
        try:
            job_id = int(s.split()[-1])
        except ValueError:
            pass
        break
```

The loop `break`s at the FIRST line whose stripped form starts with the
marker, whether or not its last token parses — later lines are never
examined. -/
def submitScan : List String → Option Int
  | [] => none
  | line :: rest =>
    let s := pyStrip line.data
    if isPrefixC "Submitted batch job ".data s then
      match (pySplitWs s).getLast? with
      | some w => pyInt (String.mk w)
      | none => none  -- unreachable: `s` starts with a non-space marker
    else submitScan rest

/-- Embedding of `submit` from the point where the submission command's
stdout/stderr have been captured; `sbatch` availability, the existence of
`run.sh`, the generated timestamp and the environment user are explicit
inputs.  Command-vector construction, directory creation and path
expansion are process I/O and are not modelled; the claim-relevant outputs
(id, name, log paths with `%j` substituted) are. -/
def submit (sbatchAvail runShExists : Bool) (stdout stderr : String)
    (name stamp user cluster stdout_file stderr_file : String) :
    Except SubmitErr JobHandle :=
  if !sbatchAvail then Except.error SubmitErr.slurmUnavailable
  else if !runShExists then Except.error SubmitErr.fileNotFound
  else
    let out := strStrip stdout
    let err := strStrip stderr
    match submitScan (strSplitLines out) with
    | none => Except.error (SubmitErr.parseFailure out err)
    | some jobId =>
      Except.ok
        { id := jobId
          name := name ++ "_" ++ stamp
          user := user
          partition := cluster
          stdout_path := String.mk (replacePercentJ (intStr jobId) stdout_file.data)
          stderr_path := String.mk (replacePercentJ (intStr jobId) stderr_file.data) }

/-! ## fairshare_scores (backend.py 412–437) -/

/-- Exponent suffix of a Python float literal (empty, or `e`/`E` with an
optional sign and a non-empty digit run). -/
def pyExp : List Char → Option Int
  | [] => some 0
  | c :: r =>
    if c = 'e' || c = 'E' then
      match r with
      | '+' :: ds =>
        if ds ≠ [] && ds.all Char.isDigit then some (digitsVal ds) else none
      | '-' :: ds =>
        if ds ≠ [] && ds.all Char.isDigit then some (-(digitsVal ds : Int))
        else none
      | ds =>
        if ds ≠ [] && ds.all Char.isDigit then some (digitsVal ds) else none
    else none

/-- Unsigned part of a Python float literal: digits with an optional
decimal point (at least one digit overall) and an optional exponent. -/
def pyFloatPos (l : List Char) : Option ℚ :=
  let ip := l.takeWhile Char.isDigit
  let rest1 := l.dropWhile Char.isDigit
  match rest1 with
  | '.' :: r2 =>
    let fp := r2.takeWhile Char.isDigit
    let rest2 := r2.dropWhile Char.isDigit
    if ip = [] && fp = [] then none
    else
      (pyExp rest2).map (fun e =>
        ((digitsVal ip : ℚ) + (digitsVal fp : ℚ) / 10 ^ fp.length) *
          (10 : ℚ) ^ e)
  | rest2 =>
    if ip = [] then none
    else (pyExp rest2).map (fun e => (digitsVal ip : ℚ) * (10 : ℚ) ^ e)

/-- Python `float(s)` on finite decimal literals, as exact rationals:
surrounding whitespace stripped, optional sign, digits/point/exponent.
(The special spellings `inf`/`infinity`/`nan` have no rational value and
are not modelled; no fair-share score uses them.) -/
def pyFloat (s : String) : Option ℚ :=
  match pyStrip s.data with
  | '+' :: rest => pyFloatPos rest
  | '-' :: rest => (pyFloatPos rest).map (fun q => -q)
  | rest => pyFloatPos rest

/-- Python dict assignment `d[k] = v`: update the existing key in place,
else append. -/
def dinsert {α : Type} : List (String × α) → String → α → List (String × α)
  | [], k, v => [(k, v)]
  | (k', v') :: rest, k, v =>
    if k' == k then (k', v) :: rest else (k', v') :: dinsert rest k v

/-- The parse loop of `fairshare_scores`: for each line, whitespace-split;
lines with at least two tokens contribute `scores[parts[0]] =
float(parts[1])`, lines whose value does not parse are skipped. -/
def parseScores (lines : List String) : List (String × ℚ) :=
  lines.foldl (fun scores line =>
    match pySplitWs line.data with
    | user :: val :: _ =>
      match pyFloat (String.mk val) with
      | some v => dinsert scores (String.mk user) v
      | none => scores
    | _ => scores) []

/-- Environment for `fairshare_scores`: tool availability and the stdout
of `sprio -o user,fairshare -n` resp. `sshare -o user,fairshare -n`. -/
structure FsEnv where
  sprioAvail : Bool
  sshareAvail : Bool
  sprioOut : String
  sshareOut : String

/-- Embedding of backend.py `fairshare_scores` (lines 412–437): choose the
`sprio` command when available, else the `sshare` command, else return the
empty mapping without running anything; then parse the chosen tool's
output.  The function is total: no exception escapes. -/
def fairshare_scores (env : FsEnv) : List (String × ℚ) :=
  if env.sprioAvail then parseScores (strSplitLines env.sprioOut)
  else if env.sshareAvail then parseScores (strSplitLines env.sshareOut)
  else []

/-! ## Partition capacity and utilization (backend.py 345–409) -/

/-- Embedding of `_parse_gpu` (backend.py 345–355): sum the counts of the
`gpu:`-prefixed entries of a comma-separated GRES string, taking the last
`:`-separated field of each and ignoring parenthesised annotations and
unparsable counts. -/
def _parse_gpu (gres : String) : Int :=
  (splitSepC ',' gres.data).foldl (fun total token =>
    let tok := takeUntilC '(' (pyStrip token)
    if isPrefixC "gpu:".data tok then
      match pyInt (String.mk ((splitSepC ':' tok).getLastD [])) with
      | some n => total + n
      | none => total
    else total) 0

/-- Embedding of `_partition_caps` (backend.py 358–380) applied to the
stdout of `sinfo -ah -o "%P|%C|%G|%D"`: every line (padded with `"|||"`
and cut to four fields) yields an entry mapping the partition (trailing
`'*'` stripped) to total CPUs (last `/`-field of `%C`, i.e. the total) and
total GPUs (per-node GPUs × node count); unparsable numbers count as 0. -/
def _partition_caps (out : String) : List (String × Int × Int) :=
  (splitlinesC out.data).foldl (fun caps line =>
    let parts := (splitSepC '|' (line ++ "|||".data)).take 4
    let part := String.mk (rstripStarC (parts.getD 0 []))
    let c_field := parts.getD 1 []
    let g_field := parts.getD 2 []
    let d_field := parts.getD 3 []
    let cpus : Int :=
      if c_field ≠ [] then
        match pyInt (String.mk ((splitSepC '/' c_field).getLastD [])) with
        | some n => n
        | none => 0
      else 0
    let gpn := _parse_gpu (String.mk g_field)
    let nodes : Int :=
      if d_field ≠ [] then
        match pyInt (String.mk d_field) with
        | some n => n
        | none => 0
      else 0
    dinsert caps part (cpus, gpn * nodes)) []

/-- Python `usage.setdefault(part, {"cpus": 0, "gpus": 0})` followed by
`u["cpus"] += cpus; u["gpus"] += gpus`. -/
def usageAdd : List (String × Int × Int) → String → Int → Int →
    List (String × Int × Int)
  | [], k, dc, dg => [(k, dc, dg)]
  | (k', c, g) :: rest, k, dc, dg =>
    if k' == k then (k', c + dc, g + dg) :: rest
    else (k', c, g) :: usageAdd rest k dc dg

/-- The squeue invocation of `partition_utilization` (backend.py 387); the
`-t RUNNING` filter restricts the usage query to jobs in the RUNNING
state. -/
def utilizationSqueueCmd : List String :=
  ["squeue", "-h", "-t", "RUNNING", "-o", "%P|%C|%b"]

/-- The per-partition usage accumulation of `partition_utilization`
(backend.py 388–400) over the stdout of `utilizationSqueueCmd`. -/
def runningUsage (out : String) : List (String × Int × Int) :=
  (splitlinesC out.data).foldl (fun usage line =>
    let parts := (splitSepC '|' (line ++ "||".data)).take 3
    let part := String.mk (parts.getD 0 [])
    let c_field := parts.getD 1 []
    let g_field := parts.getD 2 []
    let cpus : Int :=
      if c_field ≠ [] then
        match pyInt (String.mk c_field) with
        | some n => n
        | none => 0
      else 0
    let gpus := _parse_gpu (String.mk g_field)
    usageAdd usage part cpus gpus) []

/-- The loop body of `partition_utilization` (backend.py 402–408):
`use = usage.get(part, {})`, ratios guarded by `if cpu_total` /
`if gpu_total` (0.0 on zero capacity, never a division by zero), result
`max(cpu_pct, gpu_pct) * 100`.  Rationals stand for the Python floats. -/
def utilValue (usage : List (String × Int × Int)) (part : String)
    (cap : Int × Int) : ℚ :=
  let use := dget usage part
  let cpu_total : Int := cap.1
  let gpu_total : Int := cap.2
  let cpu_use : Int := (use.map (fun u => u.1)).getD 0
  let gpu_use : Int := (use.map (fun u => u.2)).getD 0
  let cpu_pct : ℚ :=
    if cpu_total ≠ 0 then (cpu_use : ℚ) / (cpu_total : ℚ) else 0
  let gpu_pct : ℚ :=
    if gpu_total ≠ 0 then (gpu_use : ℚ) / (gpu_total : ℚ) else 0
  max cpu_pct gpu_pct * 100

/-- Embedding of `partition_utilization` (backend.py 383–409): one entry
per capacity entry, in order (`_partition_caps` keys are distinct by
construction, so the dict comprehension is a map over them). -/
def partition_utilization (sinfoOut squeueOut : String) :
    List (String × ℚ) :=
  (_partition_caps sinfoOut).map
    (fun pc => (pc.1, utilValue (runningUsage squeueOut) pc.1 pc.2))

/-! ## recent_completions (backend.py 300–342) -/

/-- A parsed `%Y-%m-%dT%H:%M:%S` timestamp. -/
structure PyDT where
  y : Nat
  mo : Nat
  d : Nat
  hh : Nat
  mi : Nat
  ss : Nat
deriving DecidableEq, Repr

/-- Gregorian leap year. -/
def isLeap (y : Nat) : Bool :=
  (y % 4 == 0 && y % 100 != 0) || y % 400 == 0

/-- Days in month `m` of year `y`. -/
def daysInMonth (y m : Nat) : Nat :=
  if m = 2 then (if isLeap y then 29 else 28)
  else if m = 4 || m = 6 || m = 9 || m = 11 then 30
  else 31

/-- Match a 1–2 digit numeric field with value in `[lo, hi]` (the net
effect of the CPython `_strptime` regex alternations for
`%m %d %H %M %S`), returning the value and the unconsumed input. -/
def field12 (lo hi : Nat) (l : List Char) : Option (Nat × List Char) :=
  let ds := l.takeWhile Char.isDigit
  if ds.length = 1 || ds.length = 2 then
    let v := digitsVal ds
    if lo ≤ v && v ≤ hi then some (v, l.dropWhile Char.isDigit) else none
  else none

/-- The `datetime` constructor's range validation (`datetime.__new__`):
year ≥ `MINYEAR` = 1, month 1–12, day within the month, hour ≤ 23 and
minute/second ≤ 59 (so the 60–61 admitted by the `%S` regex are
rejected here, exactly as in CPython). -/
def datetimeNew (y mo d hh mi ss : Nat) : Option PyDT :=
  if 1 ≤ y ∧ 1 ≤ mo ∧ mo ≤ 12 ∧ 1 ≤ d ∧ d ≤ daysInMonth y mo ∧
      hh ≤ 23 ∧ mi ≤ 59 ∧ ss ≤ 59 then
    some ⟨y, mo, d, hh, mi, ss⟩
  else none

/-- Embedding of `datetime.strptime(token, "%Y-%m-%dT%H:%M:%S")`: the
`_strptime` regex match — exactly four year digits, 1–2 digit month / day
/ hour / minute / second fields in their regex ranges, exact literal
separators, the whole string consumed — followed by the `datetime`
constructor (`datetimeNew`). -/
def strptimeTS : List Char → Option PyDT
  | y1 :: y2 :: y3 :: y4 :: rest =>
    if y1.isDigit && y2.isDigit && y3.isDigit && y4.isDigit then
      let y := digitsVal [y1, y2, y3, y4]
      match rest with
      | '-' :: r1 =>
        match field12 1 12 r1 with
        | some (mo, r2) =>
          match r2 with
          | '-' :: r3 =>
            match field12 1 31 r3 with
            | some (d, r4) =>
              match r4 with
              | 'T' :: r5 =>
                match field12 0 23 r5 with
                | some (hh, r6) =>
                  match r6 with
                  | ':' :: r7 =>
                    match field12 0 59 r7 with
                    | some (mi, r8) =>
                      match r8 with
                      | ':' :: r9 =>
                        match field12 0 61 r9 with
                        | some (ss, r10) =>
                          if r10 = [] then datetimeNew y mo d hh mi ss
                          else none
                        | none => none
                      | _ => none
                    | none => none
                  | _ => none
                | none => none
              | _ => none
            | none => none
          | _ => none
        | none => none
      | _ => none
    else none
  | _ => none

/-- Days in the months strictly before month `m + 1` of year `y`. -/
def cumDays (y : Nat) : Nat → Nat
  | 0 => 0
  | m + 1 => cumDays y m + daysInMonth y (m + 1)

/-- Ordinal day within the year (1-based). -/
def dayOfYear (y m d : Nat) : Nat := cumDays y (m - 1) + d

/-- Leap days in years `1 .. y`. -/
def leapsBefore (y : Nat) : Nat := y / 4 - y / 100 + y / 400

/-- Rata die: days since 0000-12-31 in the proleptic Gregorian calendar
(`rataDie 1 1 1 = 1`); equals Python `date.toordinal()`. -/
def rataDie (y m d : Nat) : Nat :=
  365 * (y - 1) + leapsBefore (y - 1) + dayOfYear y m d

/-- ISO weekday, Monday = 1 … Sunday = 7. -/
def isoWeekday (y m d : Nat) : Nat := (rataDie y m d - 1) % 7 + 1

/-- Weekday index of 31 December of year `y` (0 = Sunday shift); the
classic `p(y)` of the ISO week-count formula. -/
def isoPfx (y : Nat) : Nat := (y + y / 4 - y / 100 + y / 400) % 7

/-- Number of ISO weeks (52 or 53) in year `y`. -/
def isoWeeksInYear (y : Nat) : Nat :=
  if isoPfx y = 4 || isoPfx (y - 1) = 3 then 53 else 52

/-- Embedding of `datetime.date.isocalendar` (ISO 8601 year and week):
`w = (10 + dayOfYear - weekday) / 7`; week 0 belongs to the previous ISO
year, week 53 of a 52-week year to the next. -/
def isocalendar (y m d : Nat) : Nat × Nat :=
  let N := dayOfYear y m d
  let wd := isoWeekday y m d
  let w := (10 + N - wd) / 7
  if w = 0 then (y - 1, isoWeeksInYear (y - 1))
  else if w = 53 && isoWeeksInYear y = 52 then (y + 1, 1)
  else (y, w)

/-- `f"{n:02d}"` (also the `%m` / `%d` strftime fields). -/
def pad2 (n : Nat) : List Char := if n < 10 then '0' :: natStr n else natStr n

/-- `dt.strftime("%Y-%m-%d")` on a (year, month, day) triple; `%Y` prints
the year unpadded like `str(year)` (glibc) — all years reaching the
theorems are four-digit. -/
def dayKeyT (t : Nat × Nat × Nat) : List Char :=
  natStr t.1 ++ '-' :: (pad2 t.2.1 ++ '-' :: pad2 t.2.2)

/-- `f"{year}-W{week:02d}"` on an (ISO year, ISO week) pair. -/
def weekKeyT (t : Nat × Nat) : List Char :=
  natStr t.1 ++ '-' :: 'W' :: pad2 t.2

/-- The bucket key of `recent_completions` (backend.py 335–339). -/
def bucketKey (span : String) (dt : PyDT) : String :=
  if span = "week" then String.mk (weekKeyT (isocalendar dt.y dt.mo dt.d))
  else String.mk (dayKeyT (dt.y, dt.mo, dt.d))

/-- `counts[key] += 1` on a `Counter` (missing keys count 0). -/
def counterAdd : List (String × Nat) → String → List (String × Nat)
  | [], k => [(k, 1)]
  | (k', n) :: rest, k =>
    if k' == k then (k', n + 1) :: rest else (k', n) :: counterAdd rest k

/-- The timestamps the sacct-output loop of `recent_completions` counts:
per line, strip, skip blank lines, cut at the first `'.'`
(`token.split(".")[0]`), parse; lines that fail to parse are skipped. -/
def parsedStamps (out : String) : List PyDT :=
  (strSplitLines out).filterMap (fun line =>
    let token := pyStrip line.data
    if token = [] then none else strptimeTS (takeUntilC '.' token))

/-- The `Counter` built by the loop of `recent_completions`
(backend.py 326–340): blank and unparsable lines leave the counter
untouched, so the loop is the fold of `counterAdd` over the parsed
timestamps in line order. -/
def completionCounts (out : String) (span : String) : List (String × Nat) :=
  (parsedStamps out).foldl
    (fun counts dt => counterAdd counts (bucketKey span dt)) []

/-- Strict lexicographic comparison of char lists by code point — exactly
how Python compares the key strings in `sorted(counts.items())` (the
counter's keys are distinct, so the tuple's second component never
decides). -/
def charListLt : List Char → List Char → Bool
  | [], [] => false
  | [], _ :: _ => true
  | _ :: _, [] => false
  | a :: as, b :: bs =>
    if a < b then true else if b < a then false else charListLt as bs

/-- The sort order of `sorted(counts.items())` on entries. -/
def keyLE (a b : String × Nat) : Prop := charListLt b.1.data a.1.data = false

instance : DecidableRel keyLE := fun a b =>
  instDecidableEqBool (charListLt b.1.data a.1.data) false

/-- Python `items[-count:]`: for `count ≥ 1` the last `count` items; for
`count = 0` the slice `[-0:] = [0:]` is the WHOLE list. -/
def pySliceLast {α : Type} (l : List α) (count : Nat) : List α :=
  if count = 0 then l else l.drop (l.length - count)

/-- `timedelta(days=count if span == "day" else count * 7)`. -/
def windowDays (span : String) (count : Nat) : Nat :=
  if span = "day" then count else count * 7

/-- Inverse of `rataDie` (Hinnant's `civil_from_days` shifted to rata
die); models the date arithmetic of `datetime.now() - delta`. -/
def civilFromRD (n : Nat) : Nat × Nat × Nat :=
  let z := n + 305
  let era := z / 146097
  let doe := z % 146097
  let yoe := (doe - doe / 1460 + doe / 36524 - doe / 146096) / 365
  let y := yoe + era * 400
  let doy := doe - (365 * yoe + yoe / 4 - yoe / 100)
  let mp := (5 * doy + 2) / 153
  let d := doy - (153 * mp + 2) / 5 + 1
  let m := if mp < 10 then mp + 3 else mp - 9
  if m ≤ 2 then (y + 1, m, d) else (y, m, d)

/-- The `--starttime` argument of the sacct command built by
`recent_completions` (backend.py 314–315): today minus the trailing
window, formatted `%Y-%m-%d`. -/
def recentStartDate (today : Nat × Nat × Nat) (span : String)
    (count : Nat) : String :=
  let d := civilFromRD
    (rataDie today.1 today.2.1 today.2.2 - windowDays span count)
  String.mk (dayKeyT d)

/-- Errors `recent_completions` can raise. -/
inductive RecentErr where
  | slurmUnavailable
  | valueError
deriving DecidableEq, Repr

/-- Embedding of `recent_completions` (backend.py 300–342): require
`sacct`, validate the span, count completions per day / ISO-week bucket
from the sacct `End` column (the sacct command itself is filtered to
state CD within the trailing `recentStartDate` window), sort the counter
items by key, and return the Python slice `items[-count:]`. -/
def recent_completions (sacctAvail : Bool) (out : String) (span : String)
    (count : Nat) : Except RecentErr (List (String × Nat)) :=
  if !sacctAvail then Except.error RecentErr.slurmUnavailable
  else if span ≠ "day" && span ≠ "week" then Except.error RecentErr.valueError
  else
    let items := List.insertionSort keyLE (completionCounts out span)
    Except.ok (pySliceLast items count)

/-- Zero-padded `k`-digit decimal numeral (most significant first);
correct for `n < 10 ^ k`.  Proof-side normal form of the key formats. -/
def padNat : Nat → Nat → List Char
  | 0, _ => []
  | k + 1, n => Nat.digitChar (n / 10 ^ k) :: padNat k (n % 10 ^ k)

/-- Strict lexicographic order on (year, month, day). -/
def dayLtT (a b : Nat × Nat × Nat) : Prop :=
  a.1 < b.1 ∨ (a.1 = b.1 ∧
    (a.2.1 < b.2.1 ∨ (a.2.1 = b.2.1 ∧ a.2.2 < b.2.2)))

/-- Strict lexicographic order on (ISO year, ISO week). -/
def weekLtT (a b : Nat × Nat) : Prop :=
  a.1 < b.1 ∨ (a.1 = b.1 ∧ a.2 < b.2)

/-- Chronological comparison used to state C5: for week span, (ISO year,
ISO week) of the first is not after that of the second; for day span the
calendar dates are so ordered. -/
def chronLe (span : String) (dt1 dt2 : PyDT) : Prop :=
  if span = "week" then
    ¬ (weekLtT (isocalendar dt2.y dt2.mo dt2.d)
        (isocalendar dt1.y dt1.mo dt1.d))
  else
    ¬ (dayLtT (dt2.y, dt2.mo, dt2.d) (dt1.y, dt1.mo, dt1.d))

/-- Range hypothesis for the chronological-order theorem: every parsed
completion year is four-digit with both ISO neighbours four-digit too. -/
def yearsInRange (out : String) : Prop :=
  ∀ dt ∈ parsedStamps out, 1001 ≤ dt.y ∧ dt.y ≤ 9998

/-! ## Theorems: generic list lemmas -/

theorem head?_dropWhile_false {α : Type} {p : α → Bool} {l : List α} {a : α}
    (h : (l.dropWhile p).head? = some a) : p a = false := by
  induction l with
  | nil => simp at h
  | cons b t ih =>
    by_cases hb : p b
    · rw [List.dropWhile_cons, if_pos hb] at h
      exact ih h
    · rw [List.dropWhile_cons, if_neg hb] at h
      simp at h
      subst h
      exact Bool.eq_false_iff.mpr hb

theorem dropWhile_eq_self_of_head {α : Type} {p : α → Bool} {l : List α}
    (h : ∀ a, l.head? = some a → p a = false) : l.dropWhile p = l := by
  cases l with
  | nil => rfl
  | cons b t =>
    rw [List.dropWhile_cons, if_neg]
    simp only [List.head?_cons] at h
    simp [h b rfl]

theorem mem_takeWhile_mem {α : Type} {p : α → Bool} {l : List α} {a : α}
    (h : a ∈ l.takeWhile p) : a ∈ l :=
  (List.takeWhile_sublist p).subset h

/-! ## Theorems: word splitting -/

theorem pySplitWsAux_words {l acc : List Char}
    (hacc : ∀ c ∈ acc, pyIsSpace c = false) :
    ∀ w ∈ pySplitWsAux l acc, w ≠ [] ∧ ∀ c ∈ w, pyIsSpace c = false := by
  induction l generalizing acc with
  | nil =>
    intro w hw
    simp only [pySplitWsAux] at hw
    split at hw
    · simp at hw
    · next hne =>
      simp at hw
      subst hw
      refine ⟨by simpa using hne, ?_⟩
      intro c hc
      exact hacc c (List.mem_reverse.mp hc)
  | cons c cs ih =>
    intro w hw
    simp only [pySplitWsAux] at hw
    by_cases hsp : pyIsSpace c
    · rw [if_pos hsp] at hw
      by_cases hacc0 : acc = []
      · rw [if_pos hacc0] at hw
        exact ih (by simp) w hw
      · rw [if_neg hacc0] at hw
        rcases List.mem_cons.mp hw with h | h
        · subst h
          refine ⟨by simpa using hacc0, ?_⟩
          intro x hx
          exact hacc x (List.mem_reverse.mp hx)
        · exact ih (by simp) w h
    · rw [if_neg hsp] at hw
      refine ih ?_ w hw
      intro x hx
      rcases List.mem_cons.mp hx with h | h
      · subst h; exact Bool.eq_false_iff.mpr hsp
      · exact hacc x h

theorem pySplitWsAux_nospace {l : List Char}
    (h : ∀ c ∈ l, pyIsSpace c = false) (acc : List Char) :
    pySplitWsAux l acc =
      if acc.reverse ++ l = [] then [] else [acc.reverse ++ l] := by
  induction l generalizing acc with
  | nil => simp [pySplitWsAux]
  | cons c cs ih =>
    have hc : pyIsSpace c = false := h c (List.mem_cons_self c cs)
    simp only [pySplitWsAux, hc, Bool.false_eq_true, if_false]
    rw [ih (fun x hx => h x (List.mem_cons_of_mem c hx)) (c :: acc)]
    simp

theorem pySplitWs_single {l : List Char} (hne : l ≠ [])
    (h : ∀ c ∈ l, pyIsSpace c = false) : pySplitWs l = [l] := by
  unfold pySplitWs
  rw [pySplitWsAux_nospace h []]
  simp [hne]

theorem pySplitWs_words {l : List Char} :
    ∀ w ∈ pySplitWs l, w ≠ [] ∧ ∀ c ∈ w, pyIsSpace c = false :=
  pySplitWsAux_words (by simp)

/-! ## Theorems: strip / takeUntil / rstrip -/

theorem stripL_eq_self {l : List Char} (h : ∀ c ∈ l, pyIsSpace c = false) :
    stripL l = l :=
  dropWhile_eq_self_of_head (fun a ha => h a (List.mem_of_mem_head? ha))

theorem stripR_eq_self {l : List Char} (h : ∀ c ∈ l, pyIsSpace c = false) :
    stripR l = l := by
  unfold stripR
  rw [dropWhile_eq_self_of_head
    (fun a ha => h a (List.mem_reverse.mp (List.mem_of_mem_head? ha)))]
  exact List.reverse_reverse l

theorem pyStrip_eq_self {l : List Char} (h : ∀ c ∈ l, pyIsSpace c = false) :
    pyStrip l = l := by
  unfold pyStrip
  rw [stripL_eq_self h, stripR_eq_self h]

theorem takeUntilC_eq_self {ch : Char} {l : List Char}
    (h : ∀ c ∈ l, c ≠ ch) : takeUntilC ch l = l :=
  List.takeWhile_eq_self_iff.mpr (fun x hx => by simpa using h x hx)

theorem mem_takeUntilC {ch : Char} {l : List Char} {c : Char}
    (h : c ∈ takeUntilC ch l) : c ∈ l ∧ c ≠ ch :=
  ⟨mem_takeWhile_mem h, by simpa using List.mem_takeWhile_imp h⟩

theorem mem_rstripStarC {l : List Char} {c : Char}
    (h : c ∈ rstripStarC l) : c ∈ l := by
  unfold rstripStarC at h
  exact List.mem_reverse.mp
    ((List.dropWhile_sublist _).subset (List.mem_reverse.mp h))

theorem rstripStarC_getLast {l : List Char} {a : Char}
    (h : (rstripStarC l).getLast? = some a) : a ≠ '*' := by
  unfold rstripStarC at h
  rw [List.getLast?_reverse] at h
  have := head?_dropWhile_false h
  simpa using this

theorem rstripStarC_eq_self {l : List Char}
    (h : ∀ a, l.getLast? = some a → a ≠ '*') : rstripStarC l = l := by
  unfold rstripStarC
  rw [dropWhile_eq_self_of_head, List.reverse_reverse]
  intro a ha
  rw [List.head?_reverse] at ha
  simpa using h a ha

/-! ## C2: state-normalizer idempotency -/

/-- C2 counterexample: the claim asserts idempotency "for every input
string", but on the whitespace-only input `" "` the Python code evaluates
`" ".strip().split()[0]`, i.e. `[][0]`, and raises `IndexError` (modelled
as `none`); `normalize_state(normalize_state(" ")) == normalize_state(" ")`
therefore does not hold as an evaluation — the call never returns. -/
theorem c2_counterexample : normalize_state " " = none := by decide

/-- C2 (amended): on every input on which the normalizer returns a value —
every string that is empty or contains at least one non-whitespace
character; whitespace-only non-empty input raises `IndexError` — it is
idempotent, and `normalize_state "RUNNING*" = "RUNNING"`,
`normalize_state "COMPLETING+" = "COMPLETING"`. -/
theorem c2_normalize_idempotent :
    (∀ s t : String, normalize_state s = some t → normalize_state t = some t) ∧
    normalize_state "RUNNING*" = some "RUNNING" ∧
    normalize_state "COMPLETING+" = some "COMPLETING" := by
  refine ⟨?_, by decide, by decide⟩
  intro s t h
  unfold normalize_state at h
  by_cases hs : s.data = []
  · rw [if_pos hs] at h
    simp only [Option.map_some'] at h
    have ht : t = String.mk [] := by
      simpa [takeUntilC, rstripStarC] using h.symm
    subst ht
    decide
  · rw [if_neg hs] at h
    rcases Option.map_eq_some'.mp h with ⟨w, hw, hwt⟩
    have hwmem : w ∈ pySplitWs (pyStrip s.data) := List.mem_of_mem_head? hw
    have hwprops := pySplitWs_words w hwmem
    -- the produced token
    set u : List Char := rstripStarC (takeUntilC '(' (takeUntilC '+' w)) with hu
    have ht : t = String.mk u := hwt.symm
    subst ht
    -- every character of u is a non-space character of w
    have humem : ∀ c ∈ u, c ∈ w ∧ c ≠ '(' ∧ c ≠ '+' := by
      intro c hc
      have h1 := mem_rstripStarC hc
      have h2 := mem_takeUntilC h1
      have h3 := mem_takeUntilC h2.1
      exact ⟨h3.1, h2.2, h3.2⟩
    by_cases hue : u = []
    · rw [hue]
      decide
    · unfold normalize_state
      have hdata : (String.mk u).data = u := rfl
      rw [hdata, if_neg hue]
      have hnospace : ∀ c ∈ u, pyIsSpace c = false :=
        fun c hc => hwprops.2 c (humem c hc).1
      rw [pyStrip_eq_self hnospace, pySplitWs_single hue hnospace]
      simp only [List.head?_cons, Option.map_some', Option.some.injEq]
      rw [takeUntilC_eq_self (fun c hc => (humem c hc).2.2),
        takeUntilC_eq_self (fun c hc => (humem c hc).2.1),
        rstripStarC_eq_self (fun a ha => rstripStarC_getLast ha)]

/-- C2 witness: the idempotency theorem applied at the concrete input
`"RUNNING*"`, whose normal form is `"RUNNING"`. -/
theorem c2_witness :
    normalize_state "RUNNING*" = some "RUNNING" ∧
    normalize_state "RUNNING" = some "RUNNING" :=
  ⟨by decide, c2_normalize_idempotent.1 "RUNNING*" "RUNNING" (by decide)⟩

/-! ## C3: table-parser row filtering -/

theorem filterMap_guard {α β : Type} (f : α → β) (p : α → Prop)
    [DecidablePred p] (l : List α) :
    l.filterMap (fun a => if p a then some (f a) else none) =
      (l.filter (fun a => decide (p a))).map f := by
  induction l with
  | nil => rfl
  | cons a t ih =>
    by_cases ha : p a
    · simp [List.filterMap_cons, List.filter_cons, ha, ih]
    · simp [List.filterMap_cons, List.filter_cons, ha, ih]

/-- C3 counterexample: on the claim's literal fixture the parser yields
exactly ONE row, not two.  `"3|job3|PENDING|extra".split("|")` has four
tokens (Python `str.split` has no maxsplit here), which differs from the
three fields, so the line is dropped by the field-count rule — the claimed
second row `{"id":"3","name":"job3","state":"PENDING|extra"}` would require
a maxsplit the code does not use. -/
theorem c3_counterexample :
    _table "1|job1|RUNNING\n2|job2\n3|job3|PENDING|extra\n"
        ["id", "name", "state"] (some '|') =
      [[("id", "1"), ("name", "job1"), ("state", "RUNNING")]] ∧
    (_table "1|job1|RUNNING\n2|job2\n3|job3|PENDING|extra\n"
        ["id", "name", "state"] (some '|')).length ≠ 2 := by
  constructor
  · decide
  · decide

/-- C3 (amended): the table parser keeps exactly the lines whose token
count (after splitting by the given separator, or whitespace when absent)
equals the field count, drops all other lines, and preserves input line
order; for fields `["id","name","state"]` and the fixture input with
separator `"|"` it yields exactly one row,
`{"id":"1","name":"job1","state":"RUNNING"}` — the two-token line
`"2|job2"` and the four-token line `"3|job3|PENDING|extra"` are dropped. -/
theorem c3_table_rows :
    (∀ (out : String) (keys : List String) (sep : Option Char),
      _table out keys sep =
        ((splitlinesC out.data).filter
            (fun line => decide ((pySplitParts sep line).length = keys.length))).map
          (fun line => keys.zip ((pySplitParts sep line).map (fun p => String.mk p)))) ∧
    _table "1|job1|RUNNING\n2|job2\n3|job3|PENDING|extra\n"
        ["id", "name", "state"] (some '|') =
      [[("id", "1"), ("name", "job1"), ("state", "RUNNING")]] := by
  constructor
  · intro out keys sep
    exact filterMap_guard _ _ _
  · decide

/-! ## C1: status-resolution fallback order -/

theorem squeueStep_none_of_empty {env : SlurmEnv} {j : Nat}
    (h : env.squeueAvail = true → squeueStateRows env j = []) :
    squeueStep env j = Except.ok none := by
  unfold squeueStep
  by_cases hq : env.squeueAvail
  · rw [if_pos hq, h hq]
  · rw [if_neg hq]

/-- C1: for every job id, status resolution queries squeue first and,
when it yields no row or its tool is unavailable, falls back to sacct; an
unavailable source is treated as yielding no row; if no source yields a
row the result is UNKNOWN; and when both squeue and sacct are unavailable
the operation raises `SlurmUnavailableError` instead of returning
UNKNOWN. -/
theorem c1_status_resolution_fallback :
    (∀ (env : SlurmEnv) (j : Nat),
      env.squeueAvail = false → env.sacctAvail = false →
      jobStatus env j = Except.error PyErr.slurmUnavailable) ∧
    (∀ (env : SlurmEnv) (j : Nat),
      (env.squeueAvail = true ∨ env.sacctAvail = true) →
      (env.squeueAvail = true → squeueStateRows env j = []) →
      (env.sacctAvail = true → sacctStateRows env j = []) →
      jobStatus env j = Except.ok "UNKNOWN") ∧
    (∀ (env : SlurmEnv) (j : Nat) (s t : String) (rest : List String),
      env.squeueAvail = true → squeueStateRows env j = s :: rest →
      normalize_state s = some t → t ≠ "" →
      jobStatus env j = Except.ok t) ∧
    (∀ (env : SlurmEnv) (j : Nat),
      (env.squeueAvail = true → squeueStateRows env j = []) →
      env.sacctAvail = true →
      _status env j = sacctFirstToken (sacctStateRows env j)) ∧
    (∀ (env : SlurmEnv) (j : Nat),
      env.squeueAvail = false → env.sacctAvail = true →
      sacctStateRows env j = ["FAILED"] →
      jobStatus env j = Except.ok "FAILED") := by
  refine ⟨?_, ?_, ?_, ?_, ?_⟩
  · intro env j h1 h2
    unfold jobStatus
    rw [h1, h2]
    rfl
  · intro env j havail h1 h2
    have hbool : (!(env.squeueAvail || env.sacctAvail)) = false := by
      rcases havail with h | h <;> simp [h]
    unfold jobStatus
    rw [hbool, if_neg (by simp)]
    unfold _status
    rw [squeueStep_none_of_empty h1]
    by_cases hs : env.sacctAvail
    · rw [if_pos hs, h2 hs]
      rfl
    · rw [if_neg hs]
      rfl
  · intro env j s t rest h1 h2 h3 h4
    simp only [jobStatus, _status, squeueStep, h1, h2, h3, if_pos, if_true,
      Bool.true_or, Bool.not_true, Bool.false_eq_true, if_false, ne_eq, h4,
      not_false_eq_true]
    simp [pyOrStr, h4]
  · intro env j h1 h2
    unfold _status
    rw [squeueStep_none_of_empty h1, if_pos h2]
  · intro env j h1 h2 h3
    unfold jobStatus
    rw [h1, h2, if_neg (by simp)]
    unfold _status
    rw [squeueStep_none_of_empty (by rw [h1]; intro h; cases h), if_pos h2, h3]
    rfl

/-- C1 witness: with squeue absent and sacct reporting `FAILED` for job
42 resolution returns `FAILED`; with both tools absent it raises the
unavailability error. -/
theorem c1_witness :
    jobStatus ⟨false, true, fun _ => "", fun _ => "FAILED\n"⟩ 42 =
      Except.ok "FAILED" ∧
    jobStatus ⟨false, false, fun _ => "", fun _ => ""⟩ 42 =
      Except.error PyErr.slurmUnavailable :=
  ⟨c1_status_resolution_fallback.2.2.2.2 _ 42 rfl rfl rfl,
   c1_status_resolution_fallback.1 _ 42 rfl rfl⟩

/-! ## C8 / C10: normalization coverage and non-empty results -/

theorem normTokenProps (w : List Char) :
    (∀ c ∈ rstripStarC (takeUntilC '(' (takeUntilC '+' w)), c ≠ '+' ∧ c ≠ '(') ∧
      ∀ a, (rstripStarC (takeUntilC '(' (takeUntilC '+' w))).getLast? = some a →
        a ≠ '*' := by
  constructor
  · intro c hc
    have h1 := mem_rstripStarC hc
    have h2 := mem_takeUntilC h1
    have h3 := mem_takeUntilC h2.1
    exact ⟨h3.2, h2.2⟩
  · intro a ha
    exact rstripStarC_getLast ha

theorem noPlusParenProps (w : List Char) :
    ∀ c ∈ takeUntilC '(' (takeUntilC '+' w), c ≠ '+' ∧ c ≠ '(' := by
  intro c hc
  have h2 := mem_takeUntilC hc
  have h3 := mem_takeUntilC h2.1
  exact ⟨h3.2, h2.2⟩

theorem normalize_state_props {s t : String} (h : normalize_state s = some t) :
    (∀ c ∈ t.data, c ≠ '+' ∧ c ≠ '(') ∧
      ∀ a, t.data.getLast? = some a → a ≠ '*' := by
  unfold normalize_state at h
  rcases Option.map_eq_some'.mp h with ⟨w, _, hwt⟩
  have ht : t.data = rstripStarC (takeUntilC '(' (takeUntilC '+' w)) := by
    rw [← hwt]
  rw [ht]
  exact normTokenProps w

theorem sacctFirstToken_norm {L : List String} {t : String}
    (h : sacctFirstToken L = Except.ok (some t)) :
    ∃ s, normalize_state s = some t := by
  induction L with
  | nil => exact absurd h (by simp [sacctFirstToken])
  | cons s rest ih =>
    unfold sacctFirstToken at h
    cases hn : normalize_state s with
    | none => rw [hn] at h; exact absurd h (by simp)
    | some u =>
      rw [hn] at h
      dsimp only at h
      by_cases hu : u ≠ ""
      · rw [if_pos hu] at h
        simp only [Except.ok.injEq, Option.some.injEq] at h
        exact ⟨s, by rw [hn, h]⟩
      · rw [if_neg hu] at h
        exact ih h

theorem squeueStep_norm {env : SlurmEnv} {j : Nat} {t : String}
    (h : squeueStep env j = Except.ok (some t)) :
    ∃ s, normalize_state s = some t := by
  unfold squeueStep at h
  by_cases hq : env.squeueAvail
  · rw [if_pos hq] at h
    cases hr : squeueStateRows env j with
    | nil => rw [hr] at h; exact absurd h (by simp)
    | cons s rest =>
      rw [hr] at h
      simp only at h
      cases hn : normalize_state s with
      | none => rw [hn] at h; exact absurd h (by simp)
      | some u =>
        rw [hn] at h
        dsimp only at h
        by_cases hu : u ≠ ""
        · rw [if_pos hu] at h
          simp only [Except.ok.injEq, Option.some.injEq] at h
          exact ⟨s, by rw [hn, h]⟩
        · rw [if_neg hu] at h
          exact absurd h (by simp)
  · rw [if_neg hq] at h
    exact absurd h (by simp)

theorem _status_norm {env : SlurmEnv} {j : Nat} {t : String}
    (h : _status env j = Except.ok (some t)) :
    ∃ s, normalize_state s = some t := by
  unfold _status at h
  cases hsq : squeueStep env j with
  | error e => rw [hsq] at h; exact absurd h (by simp)
  | ok r =>
    rw [hsq] at h
    cases r with
    | some u =>
      simp only [Except.ok.injEq, Option.some.injEq] at h
      exact squeueStep_norm (h ▸ hsq)
    | none =>
      simp only at h
      by_cases hsa : env.sacctAvail
      · rw [if_pos hsa] at h
        exact sacctFirstToken_norm h
      · rw [if_neg hsa] at h
        exact absurd h (by simp)

theorem bk_sacct_scan_shape {L : List String} {t : String}
    (h : bk_sacct_scan L = some t) :
    ∃ w, t.data = takeUntilC '(' (takeUntilC '+' w) := by
  induction L with
  | nil => exact absurd h (by simp [bk_sacct_scan])
  | cons line rest ih =>
    unfold bk_sacct_scan at h
    by_cases htok : pyStrip line.data ≠ []
    · rw [if_pos htok] at h
      cases hw : pySplitWs (pyStrip line.data) with
      | nil => rw [hw] at h; exact absurd h (by simp)
      | cons w ws =>
        rw [hw] at h
        simp only [Option.some.injEq] at h
        exact ⟨w, by rw [← h]⟩
    · rw [if_neg htok] at h
      exact ih h

theorem bk_squeue_status_shape {env : SlurmEnv} {j : Nat} {t : String}
    (h : bk_squeue_status env j = some t) :
    ∃ w, t.data = rstripStarC (takeUntilC '(' (takeUntilC '+' w)) := by
  unfold bk_squeue_status at h
  by_cases hq : (!env.squeueAvail) = true
  · rw [if_pos hq] at h; exact absurd h (by simp)
  · rw [if_neg hq] at h
    simp only at h
    by_cases hne : pyStrip (env.squeueOut j).data ≠ []
    · rw [if_pos hne] at h
      cases hw : pySplitWs (pyStrip (env.squeueOut j).data) with
      | nil => rw [hw] at h; exact absurd h (by simp)
      | cons w ws =>
        rw [hw] at h
        simp only [Option.some.injEq] at h
        exact ⟨w, by rw [← h]⟩
    · rw [if_neg hne] at h
      exact absurd h (by simp)

/-- C8 counterexample: the backend sacct fallback does NOT pass its token
through the full normalizer — its pipeline omits `.rstrip("*")`
(backend.py line 515) — so a raw sacct state `"CANCELLED*"` is returned
with its trailing `'*'` intact, contradicting the claim that every
returned state has no trailing `'*'` regardless of source. -/
theorem c8_counterexample :
    bkJobStatus ⟨false, true, fun _ => "", fun _ => "CANCELLED*\n"⟩ 7 =
      Except.ok "CANCELLED*" ∧
    "CANCELLED*".data.getLast? = some '*' :=
  ⟨rfl, rfl⟩

/-- C8 (amended): the job-module resolver (both its squeue and sacct
steps) and the backend squeue step return only fully normalized tokens —
no `'+'`, no `'('`, no trailing `'*'`; the backend sacct fallback strips
the first word, `'+'` and `'('` qualifiers but NOT a trailing `'*'`, so
its tokens are guaranteed free of `'+'` and `'('` only. -/
theorem c8_normalizer_coverage :
    (∀ (env : SlurmEnv) (j : Nat) (t : String),
      _status env j = Except.ok (some t) →
      (∀ c ∈ t.data, c ≠ '+' ∧ c ≠ '(') ∧
        ∀ a, t.data.getLast? = some a → a ≠ '*') ∧
    (∀ (env : SlurmEnv) (j : Nat) (t : String),
      bk_squeue_status env j = some t →
      (∀ c ∈ t.data, c ≠ '+' ∧ c ≠ '(') ∧
        ∀ a, t.data.getLast? = some a → a ≠ '*') ∧
    (∀ (env : SlurmEnv) (j : Nat) (t : String),
      bk_sacct_status env j = some t →
      ∀ c ∈ t.data, c ≠ '+' ∧ c ≠ '(') := by
  refine ⟨?_, ?_, ?_⟩
  · intro env j t h
    rcases _status_norm h with ⟨s, hs⟩
    exact normalize_state_props hs
  · intro env j t h
    rcases bk_squeue_status_shape h with ⟨w, hw⟩
    rw [hw]
    exact normTokenProps w
  · intro env j t h
    unfold bk_sacct_status at h
    by_cases hs : (!env.sacctAvail) = true
    · rw [if_pos hs] at h; exact absurd h (by simp)
    · rw [if_neg hs] at h
      rcases bk_sacct_scan_shape h with ⟨w, hw⟩
      rw [hw]
      exact noPlusParenProps w

/-- C8 witness: the job-module squeue step applied to raw state
`"RUNNING*"` yields the fully normalized `"RUNNING"`. -/
theorem c8_witness :
    _status ⟨true, false, fun _ => "RUNNING*\n", fun _ => ""⟩ 1 =
      Except.ok (some "RUNNING") ∧
    ((∀ c ∈ "RUNNING".data, c ≠ '+' ∧ c ≠ '(') ∧
      ∀ a, "RUNNING".data.getLast? = some a → a ≠ '*') :=
  ⟨rfl, c8_normalizer_coverage.1
    ⟨true, false, fun _ => "RUNNING*\n", fun _ => ""⟩ 1 "RUNNING" rfl⟩

theorem pyOrStr_ne_empty {x : Option String} {d : String} (hd : d ≠ "") :
    pyOrStr x d ≠ "" := by
  unfold pyOrStr
  cases x with
  | none => exact hd
  | some t =>
    dsimp only
    by_cases ht : t = ""
    · rw [if_pos ht]; exact hd
    · rw [if_neg ht]; exact ht

/-- C10 counterexample: a whitespace-only squeue state row is NOT treated
as "no result": `normalize_state(" ")` raises `IndexError`
(`" ".strip().split()[0]` is `[][0]`), which propagates out of
`Job.status`, so resolution does not fall through to sacct — which here
reports `FAILED`. -/
theorem c10_counterexample :
    jobStatus ⟨true, true, fun _ => " \n", fun _ => "FAILED\n"⟩ 1 =
      Except.error PyErr.indexError ∧
    sacctStateRows ⟨true, true, fun _ => " \n", fun _ => "FAILED\n"⟩ 1 =
      ["FAILED"] :=
  ⟨rfl, rfl⟩

/-- C10 (amended): whenever `Job.status` returns a value it is non-empty
(either a state token or the sentinel "UNKNOWN") — in both the job module
and the backend; a squeue row whose state normalizes (without error) to
the empty string — e.g. an empty raw state — is treated as no result and
resolution falls through to sacct; a whitespace-only raw state instead
raises `IndexError` in the job module. -/
theorem c10_nonempty_status :
    (∀ (env : SlurmEnv) (j : Nat) (r : String),
      jobStatus env j = Except.ok r → r ≠ "") ∧
    (∀ (env : SlurmEnv) (j : Nat) (s : String) (rest : List String),
      env.squeueAvail = true → squeueStateRows env j = s :: rest →
      normalize_state s = some "" → env.sacctAvail = true →
      _status env j = sacctFirstToken (sacctStateRows env j)) ∧
    (∀ (env : SlurmEnv) (j : Nat) (r : String),
      bkJobStatus env j = Except.ok r → r ≠ "") := by
  refine ⟨?_, ?_, ?_⟩
  · intro env j r h
    unfold jobStatus at h
    by_cases hav : (!(env.squeueAvail || env.sacctAvail)) = true
    · rw [if_pos hav] at h; exact absurd h (by simp)
    · rw [if_neg hav] at h
      cases hst : _status env j with
      | error e => rw [hst] at h; exact absurd h (by simp)
      | ok x =>
        rw [hst] at h
        simp only [Except.ok.injEq] at h
        rw [← h]
        exact pyOrStr_ne_empty (by decide)
  · intro env j s rest h1 h2 h3 h4
    simp only [_status, squeueStep, h1, h2, h3, if_true, ne_eq,
      not_true_eq_false, if_false, h4]
  · intro env j r h
    unfold bkJobStatus at h
    by_cases hav : (!(env.squeueAvail || env.sacctAvail)) = true
    · rw [if_pos hav] at h; exact absurd h (by simp)
    · rw [if_neg hav] at h
      simp only [Except.ok.injEq] at h
      rw [← h]
      exact pyOrStr_ne_empty (by decide)

/-- C10 witness: a run that returns a state returns a non-empty one. -/
theorem c10_witness :
    jobStatus ⟨true, false, fun _ => "RUNNING\n", fun _ => ""⟩ 1 =
      Except.ok "RUNNING" ∧ ("RUNNING" : String) ≠ "" :=
  ⟨rfl, c10_nonempty_status.1
    ⟨true, false, fun _ => "RUNNING\n", fun _ => ""⟩ 1 "RUNNING" rfl⟩

/-! ## C6: wait loop behavior -/

theorem waitLoop_returns {statuses : Nat → String} {elapsed : Nat → ℚ}
    {t : ℚ} {s : String} {m : Nat} :
    ∀ {fuel n : Nat},
      waitLoop statuses elapsed (some t) fuel n = some (s, m) →
      s = statuses m ∧ n ≤ m ∧
        (_TERMINAL.contains s = true ∨ elapsed m > t) := by
  intro fuel
  induction fuel with
  | zero => intro n h; exact absurd h (by simp [waitLoop])
  | succ f ih =>
    intro n h
    unfold waitLoop at h
    by_cases hterm : _TERMINAL.contains (statuses n) = true
    · rw [if_pos hterm] at h
      simp only [Option.some.injEq, Prod.mk.injEq] at h
      rcases h with ⟨h1, h2⟩
      subst h2
      subst h1
      exact ⟨rfl, le_refl _, Or.inl hterm⟩
    · rw [if_neg hterm] at h
      dsimp only at h
      by_cases htime : elapsed n > t
      · rw [if_pos htime] at h
        simp only [Option.some.injEq, Prod.mk.injEq] at h
        rcases h with ⟨h1, h2⟩
        subst h2
        subst h1
        exact ⟨rfl, le_refl _, Or.inr htime⟩
      · rw [if_neg htime] at h
        rcases ih h with ⟨h1, h2, h3⟩
        exact ⟨h1, le_trans (Nat.le_succ n) h2, h3⟩

theorem waitLoop_terminates {statuses : Nat → String} {elapsed : Nat → ℚ}
    {t : ℚ} {k : Nat}
    (hmono : ∀ i j : Nat, i ≤ j → elapsed i ≤ elapsed j)
    (hk : t < elapsed k) :
    ∀ (fuel n : Nat), n ≤ k → k - n < fuel →
      ∃ s m, m ≤ k ∧ waitLoop statuses elapsed (some t) fuel n = some (s, m) := by
  intro fuel
  induction fuel with
  | zero => intro n _ h; omega
  | succ f ih =>
    intro n hn hfuel
    unfold waitLoop
    by_cases hterm : _TERMINAL.contains (statuses n) = true
    · exact ⟨statuses n, n, hn, by rw [if_pos hterm]⟩
    · rw [if_neg hterm]
      dsimp only
      by_cases htime : elapsed n > t
      · exact ⟨statuses n, n, hn, by rw [if_pos htime]⟩
      · rw [if_neg htime]
        have hnk : n < k := by
          rcases Nat.lt_or_ge n k with h | h
          · exact h
          · exfalso
            have : elapsed k ≤ elapsed n := hmono k n (le_antisymm hn h ▸ le_refl n)
            exact htime (lt_of_lt_of_le hk this)
        exact ih (n + 1) hnk (by omega)

/-- C6 counterexample: with `timeout = 1`, `poll_interval = 5` (timeout
smaller than one poll interval), a non-terminal job, and a first status
check at which the timeout has not yet elapsed (`elapsed 0 = 0 ≤ 1`), the
loop does NOT return the first observed state without blocking: it sleeps
one full poll interval and returns the SECOND observed state
(`"RUNNING"`, observed after one sleep), not the first (`"PENDING"`). -/
theorem c6_counterexample :
    jobWait (fun n => if n = 0 then "PENDING" else "RUNNING")
        (fun n => if n = 0 then 0 else if n = 1 then 5 else 10) (some 1) 3 =
      some ("RUNNING", 1) ∧
    (1 : ℚ) < 5 ∧
    _TERMINAL.contains "PENDING" = false ∧
    _TERMINAL.contains "RUNNING" = false := by
  exact ⟨rfl, by norm_num, rfl, rfl⟩

/-- C6 (amended): `wait(poll_interval, timeout)` returns the terminal
state immediately — zero sleeps — when the first status query observes a
terminal state (even with `timeout = 0`); when `timeout` is set, any
return is the last-observed state, returned either because it is terminal
or because the timeout had elapsed at its check (never an error), and a
return is guaranteed once the elapsed time exceeds the timeout; with a
timeout smaller than one poll interval and a non-terminal job it returns
after at most one sleep: the first observed state immediately when the
timeout has already elapsed at the first check, otherwise the second
observed state after one sleep. -/
theorem c6_wait_timeout :
    (∀ (statuses : Nat → String) (elapsed : Nat → ℚ) (timeout : Option ℚ)
        (fuel : Nat),
      1 ≤ fuel → _TERMINAL.contains (statuses 0) = true →
      jobWait statuses elapsed timeout fuel = some (statuses 0, 0)) ∧
    (∀ (statuses : Nat → String) (elapsed : Nat → ℚ) (t : ℚ)
        (fuel : Nat) (s : String) (m : Nat),
      jobWait statuses elapsed (some t) fuel = some (s, m) →
      s = statuses m ∧ (_TERMINAL.contains s = true ∨ elapsed m > t)) ∧
    (∀ (statuses : Nat → String) (elapsed : Nat → ℚ) (t : ℚ) (k fuel : Nat),
      (∀ i j : Nat, i ≤ j → elapsed i ≤ elapsed j) → t < elapsed k →
      k < fuel →
      ∃ s m, m ≤ k ∧ jobWait statuses elapsed (some t) fuel = some (s, m)) ∧
    (∀ (statuses : Nat → String) (elapsed : Nat → ℚ) (t poll : ℚ)
        (fuel : Nat),
      2 ≤ fuel → t < poll → 0 ≤ elapsed 0 →
      elapsed 0 + poll ≤ elapsed 1 →
      _TERMINAL.contains (statuses 0) = false →
      (t < elapsed 0 ∧
        jobWait statuses elapsed (some t) fuel = some (statuses 0, 0)) ∨
      (¬ t < elapsed 0 ∧
        jobWait statuses elapsed (some t) fuel = some (statuses 1, 1))) := by
  refine ⟨?_, ?_, ?_, ?_⟩
  · intro statuses elapsed timeout fuel hfuel hterm
    match fuel, hfuel with
    | f + 1, _ =>
      unfold jobWait waitLoop
      rw [if_pos hterm]
  · intro statuses elapsed t fuel s m h
    rcases waitLoop_returns h with ⟨h1, _, h3⟩
    exact ⟨h1, h3⟩
  · intro statuses elapsed t k fuel hmono hk hfuel
    exact waitLoop_terminates hmono hk fuel 0 (Nat.zero_le k) (by omega)
  · intro statuses elapsed t poll fuel hfuel ht h0 hpoll hterm
    obtain ⟨f, rfl⟩ : ∃ f, fuel = f + 2 := ⟨fuel - 2, by omega⟩
    · by_cases hcase : t < elapsed 0
      · left
        refine ⟨hcase, ?_⟩
        unfold jobWait waitLoop
        rw [if_neg (by rw [hterm]; exact Bool.false_ne_true)]
        dsimp only
        rw [if_pos hcase]
      · right
        refine ⟨hcase, ?_⟩
        have h1 : t < elapsed 1 := by
          have : poll ≤ elapsed 1 := le_trans (by linarith) hpoll
          linarith
        unfold jobWait waitLoop
        rw [if_neg (by rw [hterm]; exact Bool.false_ne_true)]
        dsimp only
        rw [if_neg hcase]
        unfold waitLoop
        by_cases hterm1 : _TERMINAL.contains (statuses 1) = true
        · rw [if_pos hterm1]
        · rw [if_neg hterm1]
          dsimp only
          rw [if_pos h1]

/-- C6 witness: a job already terminal at the first query returns
immediately with zero sleeps even under `timeout = 0`; and a concrete
timed-out run returns the last observed non-terminal state. -/
theorem c6_witness :
    jobWait (fun _ => "COMPLETED") (fun _ => 0) (some 0) 1 =
      some ("COMPLETED", 0) ∧
    (∃ s m, m ≤ 0 ∧
      jobWait (fun _ => "PENDING") (fun _ => 7) (some 2) 1 = some (s, m)) :=
  ⟨c6_wait_timeout.1 (fun _ => "COMPLETED") (fun _ => 0) (some 0) 1
      (by norm_num) rfl,
   c6_wait_timeout.2.2.1 (fun _ => "PENDING") (fun _ => 7) 2 0 1
      (fun i j _ => le_refl 7) (by norm_num) (by norm_num)⟩

/-! ## C7: submission parse -/

/-- C7 counterexample: the claim says submission fails only "if no line of
that form with a parsable integer id exists"; here the SECOND stdout line
is exactly `"Submitted batch job 7"` — a line of the claimed form with a
parsable id — yet submission fails with the parse error, because the scan
`break`s at the FIRST matching line (`"Submitted batch job abc"`) whose
last token does not parse. -/
theorem c7_counterexample :
    strSplitLines
        (strStrip "Submitted batch job abc\nSubmitted batch job 7") =
      ["Submitted batch job abc", "Submitted batch job 7"] ∧
    submitScan ["Submitted batch job 7"] = some 7 ∧
    submit true true "Submitted batch job abc\nSubmitted batch job 7" ""
        "job" "stamp" "alice" "gpu" "./slurm_logs/%j.txt"
        "./slurm_logs/%j.err" =
      Except.error (SubmitErr.parseFailure
        "Submitted batch job abc\nSubmitted batch job 7" "") :=
  ⟨rfl, rfl, rfl⟩

/-- C7 (amended): `submit` scans stdout for the FIRST line whose stripped
form starts with `"Submitted batch job "`; only that line is considered —
its last whitespace token must parse as an integer, which becomes the job
id; otherwise (or when no line matches) submission fails hard with a
distinct parse-failure error carrying both captured streams; on success
the returned handle has that id, the generated timestamped name
`name + "_" + stamp`, and the log paths with every `%j` replaced by the
id. -/
theorem c7_submit_parse :
    (∀ (stdout stderr name stamp user cluster so se : String),
      submitScan (strSplitLines (strStrip stdout)) = none →
      submit true true stdout stderr name stamp user cluster so se =
        Except.error
          (SubmitErr.parseFailure (strStrip stdout) (strStrip stderr))) ∧
    (∀ (stdout stderr name stamp user cluster so se : String) (jid : Int),
      submitScan (strSplitLines (strStrip stdout)) = some jid →
      submit true true stdout stderr name stamp user cluster so se =
        Except.ok
          { id := jid
            name := name ++ "_" ++ stamp
            user := user
            partition := cluster
            stdout_path := String.mk (replacePercentJ (intStr jid) so.data)
            stderr_path :=
              String.mk (replacePercentJ (intStr jid) se.data) }) ∧
    (∀ (line : String) (rest : List String),
      isPrefixC "Submitted batch job ".data (pyStrip line.data) = true →
      submitScan (line :: rest) =
        (match (pySplitWs (pyStrip line.data)).getLast? with
          | some w => pyInt (String.mk w)
          | none => none)) ∧
    (∀ (line : String) (rest : List String),
      isPrefixC "Submitted batch job ".data (pyStrip line.data) = false →
      submitScan (line :: rest) = submitScan rest) := by
  refine ⟨?_, ?_, ?_, ?_⟩
  · intro stdout stderr name stamp user cluster so se h
    simp only [submit, Bool.not_true, Bool.false_eq_true, if_false]
    rw [h]
  · intro stdout stderr name stamp user cluster so se jid h
    simp only [submit, Bool.not_true, Bool.false_eq_true, if_false]
    rw [h]
  · intro line rest h
    unfold submitScan
    rw [if_pos h]
  · intro line rest h
    unfold submitScan
    rw [if_neg (by rw [h]; exact Bool.false_ne_true)]
    exact submitScan.eq_def rest

/-- C7 witness: a well-formed sbatch stdout produces a handle with the
parsed id, the stamped name, and `%j`-substituted log paths. -/
theorem c7_witness :
    submit true true "Submitted batch job 123\n" "" "job"
        "2024-01-01_00-00-00.000" "alice" "gpu" "./slurm_logs/%j.txt"
        "./slurm_logs/%j.err" =
      Except.ok
        { id := 123
          name := "job_2024-01-01_00-00-00.000"
          user := "alice"
          partition := "gpu"
          stdout_path := "./slurm_logs/123.txt"
          stderr_path := "./slurm_logs/123.err" } :=
  c7_submit_parse.2.1 "Submitted batch job 123\n" "" "job"
    "2024-01-01_00-00-00.000" "alice" "gpu" "./slurm_logs/%j.txt"
    "./slurm_logs/%j.err" 123 rfl

/-! ## C9: fair-share source fallback -/

/-- C9: `fairshare_scores` tries the priority-score source (`sprio`)
first, falls back to the share-accounting source (`sshare`) when `sprio`
is unavailable, and when both are unavailable returns an empty mapping;
the three cases exhaust every environment and each produces a value, so
no exception is ever raised. -/
theorem c9_fairshare_fallback :
    (∀ env : FsEnv, env.sprioAvail = false → env.sshareAvail = false →
      fairshare_scores env = []) ∧
    (∀ env : FsEnv, env.sprioAvail = true →
      fairshare_scores env = parseScores (strSplitLines env.sprioOut)) ∧
    (∀ env : FsEnv, env.sprioAvail = false → env.sshareAvail = true →
      fairshare_scores env = parseScores (strSplitLines env.sshareOut)) := by
  refine ⟨?_, ?_, ?_⟩
  · intro env h1 h2
    unfold fairshare_scores
    rw [h1, h2]
    rfl
  · intro env h1
    unfold fairshare_scores
    rw [h1]
    rfl
  · intro env h1 h2
    unfold fairshare_scores
    rw [h1, h2]
    rfl

/-- C9 witness: with both priority tools unavailable the result is the
empty mapping. -/
theorem c9_witness :
    fairshare_scores ⟨false, false, "alice 0.5", "bob 0.7"⟩ = [] :=
  c9_fairshare_fallback.1 ⟨false, false, "alice 0.5", "bob 0.7"⟩ rfl rfl

/-! ## C4: partition utilization formula -/

theorem dget_map {α β : Type} (l : List (String × α)) (f : String → α → β)
    (k : String) :
    dget (l.map (fun p => (p.1, f p.1 p.2))) k = (dget l k).map (f k) := by
  induction l with
  | nil => rfl
  | cons p rest ih =>
    unfold dget at ih ⊢
    simp only [List.map_cons, List.find?_cons]
    by_cases hk : p.1 == k
    · have hk' : (p.1 = k) := by simpa using hk
      subst hk'
      simp [hk]
    · simp only [hk, Bool.false_eq_true]
      simpa using ih

/-- C4: for every partition in the capacity table, the utilization entry
equals `max(CPU-in-use/CPU-total, GPU-in-use/GPU-total) × 100`, where each
ratio is guarded to 0 when its capacity is zero (so no division by zero
ever occurs and a zero-capacity partition reports 0); the usage figures
come from the squeue query whose command carries the `-t RUNNING` filter,
i.e. only jobs in the RUNNING state are counted. -/
theorem c4_partition_utilization :
    (∀ (sinfoOut squeueOut part : String) (cpuT gpuT : Int),
      dget (_partition_caps sinfoOut) part = some (cpuT, gpuT) →
      dget (partition_utilization sinfoOut squeueOut) part =
        some (max
          (if cpuT ≠ 0 then
            ((((dget (runningUsage squeueOut) part).map
                (fun u => u.1)).getD 0 : Int) : ℚ) / (cpuT : ℚ)
          else 0)
          (if gpuT ≠ 0 then
            ((((dget (runningUsage squeueOut) part).map
                (fun u => u.2)).getD 0 : Int) : ℚ) / (gpuT : ℚ)
          else 0) * 100)) ∧
    (∀ (sinfoOut squeueOut part : String),
      dget (_partition_caps sinfoOut) part = some (0, 0) →
      dget (partition_utilization sinfoOut squeueOut) part = some 0) ∧
    utilizationSqueueCmd.get? 2 = some "-t" ∧
    utilizationSqueueCmd.get? 3 = some "RUNNING" := by
  have main : ∀ (sinfoOut squeueOut part : String) (cpuT gpuT : Int),
      dget (_partition_caps sinfoOut) part = some (cpuT, gpuT) →
      dget (partition_utilization sinfoOut squeueOut) part =
        some (utilValue (runningUsage squeueOut) part (cpuT, gpuT)) := by
    intro sinfoOut squeueOut part cpuT gpuT h
    unfold partition_utilization
    rw [dget_map (_partition_caps sinfoOut)
      (fun k v => utilValue (runningUsage squeueOut) k v) part, h]
    rfl
  refine ⟨?_, ?_, rfl, rfl⟩
  · intro sinfoOut squeueOut part cpuT gpuT h
    rw [main sinfoOut squeueOut part cpuT gpuT h]
    unfold utilValue
    rfl
  · intro sinfoOut squeueOut part h
    rw [main sinfoOut squeueOut part 0 0 h]
    unfold utilValue
    norm_num

/-- C4 witness: the spec's worked example — capacity
`{cpus: 64, gpus: 8}`, running usage `{cpus: 32, gpus: 8}` — gives
`max(32/64, 8/8) * 100 = 100`; a partition with zero capacity in both
dimensions reports 0 with no exception. -/
theorem c4_witness :
    dget (partition_utilization "gpu|32/64|gpu:8|1\n" "gpu|32|gpu:8\n")
        "gpu" = some 100 ∧
    dget (partition_utilization "empty|0/0||0\n" "gpu|32|gpu:8\n")
        "empty" = some 0 := by
  constructor
  · have h := c4_partition_utilization.1 "gpu|32/64|gpu:8|1\n"
      "gpu|32|gpu:8\n" "gpu" 64 8 rfl
    rw [h]
    rw [show dget (runningUsage "gpu|32|gpu:8\n") "gpu" = some (32, 8)
      from rfl]
    norm_num
  · exact c4_partition_utilization.2.1 "empty|0/0||0\n" "gpu|32|gpu:8\n"
      "empty" rfl

/-! ## C5 lemmas: the key comparison is a linear order -/

theorem charListLt_nil_right : ∀ l : List Char, charListLt l [] = false
  | [] => rfl
  | _ :: _ => rfl

theorem charListLt_irrefl : ∀ l : List Char, charListLt l l = false
  | [] => rfl
  | a :: as => by
    simp only [charListLt, lt_irrefl, if_false]
    exact charListLt_irrefl as

theorem charListLt_asymm : ∀ {l1 l2 : List Char},
    charListLt l1 l2 = true → charListLt l2 l1 = false
  | [], [], h => by simp [charListLt] at h
  | [], _ :: _, _ => charListLt_nil_right _
  | _ :: _, [], h => by simp [charListLt] at h
  | a :: as, b :: bs, h => by
    simp only [charListLt] at h ⊢
    by_cases hab : a < b
    · rw [if_neg (lt_asymm hab), if_pos hab]
    · rw [if_neg hab] at h
      by_cases hba : b < a
      · rw [if_pos hba] at h
        exact absurd h (by simp)
      · rw [if_neg hba] at h ⊢
        rw [if_neg hab]
        exact charListLt_asymm h

theorem charListLt_total : ∀ l1 l2 : List Char,
    charListLt l1 l2 = true ∨ charListLt l2 l1 = true ∨ l1 = l2
  | [], [] => Or.inr (Or.inr rfl)
  | [], _ :: _ => Or.inl rfl
  | _ :: _, [] => Or.inr (Or.inl rfl)
  | a :: as, b :: bs => by
    rcases lt_trichotomy a b with hab | hab | hab
    · left
      simp [charListLt, hab]
    · subst hab
      rcases charListLt_total as bs with h | h | h
      · left
        simpa [charListLt, lt_irrefl] using h
      · right; left
        simpa [charListLt, lt_irrefl] using h
      · subst h
        exact Or.inr (Or.inr rfl)
    · right; left
      simp [charListLt, hab]

theorem charListLt_trans : ∀ {l1 l2 l3 : List Char},
    charListLt l1 l2 = true → charListLt l2 l3 = true →
    charListLt l1 l3 = true
  | [], l2, l3, h1, h2 => by
    cases l3 with
    | nil => rw [charListLt_nil_right] at h2; exact absurd h2 (by simp)
    | cons c cs => rfl
  | _ :: _, [], _, h1, _ => by
    rw [charListLt_nil_right] at h1; exact absurd h1 (by simp)
  | _ :: _, _ :: _, [], _, h2 => by
    rw [charListLt_nil_right] at h2; exact absurd h2 (by simp)
  | a :: as, b :: bs, c :: cs, h1, h2 => by
    simp only [charListLt] at h1 h2 ⊢
    by_cases hab : a < b
    · by_cases hbc : b < c
      · rw [if_pos (lt_trans hab hbc)]
      · rw [if_neg hbc] at h2
        by_cases hcb : c < b
        · rw [if_pos hcb] at h2; exact absurd h2 (by simp)
        · have : b = c := le_antisymm (not_lt.mp hcb) (not_lt.mp hbc)
          subst this
          rw [if_pos hab]
    · rw [if_neg hab] at h1
      by_cases hba : b < a
      · rw [if_pos hba] at h1; exact absurd h1 (by simp)
      · rw [if_neg hba] at h1
        have hab' : a = b := le_antisymm (not_lt.mp hba) (not_lt.mp hab)
        subst hab'
        by_cases hac : a < c
        · rw [if_pos hac]
        · rw [if_neg hac] at h2 ⊢
          by_cases hca : c < a
          · rw [if_pos hca] at h2; exact absurd h2 (by simp)
          · rw [if_neg hca] at h2 ⊢
            exact charListLt_trans h1 h2

instance : IsTotal (String × Nat) keyLE where
  total a b := by
    unfold keyLE
    by_cases h : charListLt b.1.data a.1.data = true
    · right
      exact charListLt_asymm h
    · left
      exact Bool.not_eq_true _ ▸ Bool.eq_false_iff.mpr h

instance : IsTrans (String × Nat) keyLE where
  trans a b c h1 h2 := by
    unfold keyLE at h1 h2 ⊢
    by_contra hca
    have hca' : charListLt c.1.data a.1.data = true := by
      simpa using hca
    rcases charListLt_total b.1.data c.1.data with h | h | h
    · have := charListLt_trans h hca'
      rw [this] at h1
      exact absurd h1 (by simp)
    · rw [h] at h2
      exact absurd h2 (by simp)
    · rw [h] at h1
      rw [hca'] at h1
      exact absurd h1 (by simp)

/-! ## C5 lemmas: padded decimal numerals order like their values -/

theorem charListLt_append_same : ∀ (l t1 t2 : List Char),
    charListLt (l ++ t1) (l ++ t2) = charListLt t1 t2
  | [], _, _ => rfl
  | a :: as, t1, t2 => by
    simp only [List.cons_append, charListLt, lt_irrefl, if_false]
    exact charListLt_append_same as t1 t2

theorem charListLt_append_of_lt : ∀ {l1 l2 : List Char} (t1 t2 : List Char),
    l1.length = l2.length → charListLt l1 l2 = true →
    charListLt (l1 ++ t1) (l2 ++ t2) = true
  | [], [], _, _, _, h => by simp [charListLt] at h
  | [], _ :: _, _, _, hlen, _ => by simp at hlen
  | _ :: _, [], _, _, hlen, _ => by simp at hlen
  | a :: as, b :: bs, t1, t2, hlen, h => by
    simp only [List.cons_append, charListLt] at h ⊢
    by_cases hab : a < b
    · rw [if_pos hab]
    · rw [if_neg hab] at h ⊢
      by_cases hba : b < a
      · rw [if_pos hba] at h
        exact absurd h (by simp)
      · rw [if_neg hba] at h ⊢
        exact charListLt_append_of_lt t1 t2 (by simpa using hlen) h

theorem length_padNat : ∀ (k n : Nat), (padNat k n).length = k
  | 0, _ => rfl
  | k + 1, n => by
    simp only [padNat, List.length_cons, length_padNat k]

theorem digitChar_lt_digitChar {a b : Nat} (hab : a < b) (hb : b ≤ 9) :
    Nat.digitChar a < Nat.digitChar b := by
  have key : ∀ x y : Fin 10, x.val < y.val →
      Nat.digitChar x.val < Nat.digitChar y.val := by decide
  exact key ⟨a, by omega⟩ ⟨b, by omega⟩ hab

theorem padNat_lt : ∀ (k : Nat) {a b : Nat}, a < b → b < 10 ^ k →
    charListLt (padNat k a) (padNat k b) = true
  | 0, a, b, hab, hb => by
    simp at hb
    omega
  | k + 1, a, b, hab, hb => by
    simp only [padNat, charListLt]
    have hple : a / 10 ^ k ≤ b / 10 ^ k := Nat.div_le_div_right (le_of_lt hab)
    have hbhi : b / 10 ^ k ≤ 9 := by
      have h10 : 0 < 10 ^ k := Nat.pos_pow_of_pos k (by norm_num)
      have : b / 10 ^ k < 10 := by
        rw [Nat.div_lt_iff_lt_mul h10]
        calc b < 10 ^ (k + 1) := hb
        _ = 10 ^ k * 10 := by rw [pow_succ]
        _ = 10 * 10 ^ k := by ring
        _ ≤ 10 * 10 ^ k := le_refl _
      omega
    rcases Nat.lt_or_ge (a / 10 ^ k) (b / 10 ^ k) with hdiv | hdiv
    · rw [if_pos (digitChar_lt_digitChar hdiv hbhi)]
    · have heq : a / 10 ^ k = b / 10 ^ k := le_antisymm hple hdiv
      rw [heq, if_neg (lt_irrefl _), if_neg (lt_irrefl _)]
      have h10 : 0 < 10 ^ k := Nat.pos_pow_of_pos k (by norm_num)
      have hmod : a % 10 ^ k < b % 10 ^ k := by
        have ha := Nat.div_add_mod a (10 ^ k)
        have hbb := Nat.div_add_mod b (10 ^ k)
        rw [heq] at ha
        omega
      exact padNat_lt k hmod (Nat.mod_lt b h10)

theorem padNat_peel : ∀ (k : Nat) {n : Nat}, n < 10 ^ (k + 1) →
    padNat (k + 1) n = padNat k (n / 10) ++ [Nat.digitChar (n % 10)]
  | 0, n, h => by
    simp only [padNat, pow_zero, Nat.div_one, List.nil_append]
    have : n % 10 = n := Nat.mod_eq_of_lt (by simpa using h)
    rw [this]
  | k + 1, n, h => by
    have hm : n % 10 ^ (k + 1) < 10 ^ (k + 1) :=
      Nat.mod_lt n (Nat.pos_pow_of_pos _ (by norm_num))
    have ih := padNat_peel k hm
    have e1 : n / 10 / 10 ^ k = n / 10 ^ (k + 1) := by
      rw [Nat.div_div_eq_div_mul, ← pow_succ']
    have e2 : n % 10 ^ (k + 1) % 10 = n % 10 :=
      Nat.mod_mod_of_dvd n (dvd_pow_self 10 (Nat.succ_ne_zero k))
    have e3 : n % 10 ^ (k + 1) / 10 = n / 10 % 10 ^ k := by
      have h' : (10 : Nat) ^ (k + 1) = 10 * 10 ^ k := by rw [pow_succ']
      rw [h', Nat.mod_mul_right_div_self]
    rw [show padNat (k + 1 + 1) n =
        Nat.digitChar (n / 10 ^ (k + 1)) :: padNat (k + 1) (n % 10 ^ (k + 1))
      from rfl]
    rw [show padNat (k + 1) (n / 10) =
        Nat.digitChar (n / 10 / 10 ^ k) :: padNat k (n / 10 % 10 ^ k)
      from rfl]
    rw [ih, e1, e2, e3]
    simp

theorem natDigitsAux_eq : ∀ (k fuel n : Nat), 10 ^ k ≤ n → n < 10 ^ (k + 1) →
    n < fuel → natDigitsAux fuel n = padNat (k + 1) n
  | 0, fuel, n, hlo, hhi, hfuel => by
    obtain ⟨f, rfl⟩ : ∃ f, fuel = f + 1 := ⟨fuel - 1, by omega⟩
    simp only [natDigitsAux]
    rw [if_pos (by simpa using hhi)]
    simp only [padNat, pow_zero, Nat.div_one]
  | k + 1, fuel, n, hlo, hhi, hfuel => by
    obtain ⟨f, rfl⟩ : ∃ f, fuel = f + 1 := ⟨fuel - 1, by omega⟩
    have h10 : ¬ n < 10 := by
      have : (10 : Nat) ≤ 10 ^ (k + 1) := by
        calc (10 : Nat) = 10 ^ 1 := (pow_one 10).symm
        _ ≤ 10 ^ (k + 1) := Nat.pow_le_pow_right (by norm_num) (by omega)
      omega
    simp only [natDigitsAux, h10, if_false]
    have hdlo : 10 ^ k ≤ n / 10 := by
      rw [Nat.le_div_iff_mul_le (by norm_num)]
      calc 10 ^ k * 10 = 10 ^ (k + 1) := (pow_succ 10 k)
      _ ≤ n := hlo
    have hdhi : n / 10 < 10 ^ (k + 1) := by
      rw [Nat.div_lt_iff_lt_mul (by norm_num)]
      calc n < 10 ^ (k + 2) := hhi
      _ = 10 ^ (k + 1) * 10 := pow_succ 10 (k + 1)
    have hdfuel : n / 10 < f := by
      have : n / 10 < n := Nat.div_lt_self (by omega) (by norm_num)
      omega
    rw [natDigitsAux_eq k f (n / 10) hdlo hdhi hdfuel]
    exact (padNat_peel (k + 1) hhi).symm

theorem natStr_eq_padNat {k n : Nat} (hlo : 10 ^ k ≤ n)
    (hhi : n < 10 ^ (k + 1)) : natStr n = padNat (k + 1) n :=
  natDigitsAux_eq k (n + 1) n hlo hhi (Nat.lt_succ_self n)

theorem natStr_eq_padNat4 {y : Nat} (h1 : 1000 ≤ y) (h2 : y ≤ 9999) :
    natStr y = padNat 4 y :=
  natStr_eq_padNat (by norm_num; omega) (by norm_num; omega)

theorem natStr_small {n : Nat} (h : n < 10) : natStr n = [Nat.digitChar n] := by
  unfold natStr natDigitsAux
  rw [if_pos h]

theorem pad2_eq_padNat {n : Nat} (h : n ≤ 99) : pad2 n = padNat 2 n := by
  unfold pad2
  by_cases h10 : n < 10
  · rw [if_pos h10, natStr_small h10]
    have e1 : n / 10 = 0 := Nat.div_eq_of_lt h10
    have e2 : n % 10 = n := Nat.mod_eq_of_lt h10
    simp only [padNat, pow_one, pow_zero, Nat.div_one, e1, e2]
    rfl
  · rw [if_neg h10]
    exact natStr_eq_padNat (by norm_num; omega) (by norm_num; omega)

/-! ## C5 lemmas: bucket keys order chronologically -/

theorem charListLt_cons_same (c : Char) (t1 t2 : List Char) :
    charListLt (c :: t1) (c :: t2) = charListLt t1 t2 := by
  simp [charListLt, lt_irrefl]

theorem dayKeyT_lt {a b : Nat × Nat × Nat}
    (ha1 : 1000 ≤ a.1) (ha2 : a.1 ≤ 9999)
    (hb1 : 1000 ≤ b.1) (hb2 : b.1 ≤ 9999)
    (ham : a.2.1 ≤ 99) (had : a.2.2 ≤ 99)
    (hbm : b.2.1 ≤ 99) (hbd : b.2.2 ≤ 99)
    (h : dayLtT a b) : charListLt (dayKeyT a) (dayKeyT b) = true := by
  obtain ⟨y1, m1, d1⟩ := a
  obtain ⟨y2, m2, d2⟩ := b
  dsimp only [dayKeyT, dayLtT] at h ha1 ha2 hb1 hb2 ham had hbm hbd ⊢
  rw [natStr_eq_padNat4 ha1 ha2, natStr_eq_padNat4 hb1 hb2,
    pad2_eq_padNat ham, pad2_eq_padNat had, pad2_eq_padNat hbm,
    pad2_eq_padNat hbd]
  rcases h with hy | ⟨hy, hrest⟩
  · exact charListLt_append_of_lt _ _ (by rw [length_padNat, length_padNat])
      (padNat_lt 4 hy (by norm_num; omega))
  · subst hy
    rw [charListLt_append_same, charListLt_cons_same]
    rcases hrest with hm | ⟨hm, hd⟩
    · exact charListLt_append_of_lt _ _
        (by rw [length_padNat, length_padNat])
        (padNat_lt 2 hm (by norm_num; omega))
    · subst hm
      rw [charListLt_append_same, charListLt_cons_same]
      exact padNat_lt 2 hd (by norm_num; omega)

theorem weekKeyT_lt {a b : Nat × Nat}
    (ha1 : 1000 ≤ a.1) (ha2 : a.1 ≤ 9999)
    (hb1 : 1000 ≤ b.1) (hb2 : b.1 ≤ 9999)
    (haw : a.2 ≤ 99) (hbw : b.2 ≤ 99)
    (h : weekLtT a b) : charListLt (weekKeyT a) (weekKeyT b) = true := by
  obtain ⟨y1, w1⟩ := a
  obtain ⟨y2, w2⟩ := b
  dsimp only [weekKeyT, weekLtT] at h ha1 ha2 hb1 hb2 haw hbw ⊢
  rw [natStr_eq_padNat4 ha1 ha2, natStr_eq_padNat4 hb1 hb2,
    pad2_eq_padNat haw, pad2_eq_padNat hbw]
  rcases h with hy | ⟨hy, hw⟩
  · exact charListLt_append_of_lt _ _ (by rw [length_padNat, length_padNat])
      (padNat_lt 4 hy (by norm_num; omega))
  · subst hy
    rw [charListLt_append_same, charListLt_cons_same, charListLt_cons_same]
    exact padNat_lt 2 hw (by norm_num; omega)

/-! ## C5 lemmas: parsed timestamps are in range -/

theorem datetimeNew_range {y mo d hh mi ss : Nat} {dt : PyDT}
    (h : datetimeNew y mo d hh mi ss = some dt) :
    1 ≤ dt.y ∧ 1 ≤ dt.mo ∧ dt.mo ≤ 12 ∧ 1 ≤ dt.d ∧ dt.d ≤ 31 := by
  unfold datetimeNew at h
  split at h
  · next hcond =>
    simp only [Option.some.injEq] at h
    subst h
    have hdm : daysInMonth y mo ≤ 31 := by
      unfold daysInMonth
      split
      · split <;> norm_num
      · split <;> norm_num
    refine ⟨hcond.1, hcond.2.1, hcond.2.2.1, hcond.2.2.2.1, ?_⟩
    show d ≤ 31
    have := hcond.2.2.2.2.1
    omega
  · exact absurd h (by simp)

theorem strptimeTS_range {l : List Char} {dt : PyDT}
    (h : strptimeTS l = some dt) :
    1 ≤ dt.y ∧ 1 ≤ dt.mo ∧ dt.mo ≤ 12 ∧ 1 ≤ dt.d ∧ dt.d ≤ 31 := by
  unfold strptimeTS at h
  repeat' split at h
  all_goals try exact Option.noConfusion h
  exact datetimeNew_range h

theorem parsedStamps_range {out : String} {dt : PyDT}
    (h : dt ∈ parsedStamps out) :
    1 ≤ dt.y ∧ 1 ≤ dt.mo ∧ dt.mo ≤ 12 ∧ 1 ≤ dt.d ∧ dt.d ≤ 31 := by
  unfold parsedStamps at h
  rcases List.mem_filterMap.mp h with ⟨line, _, hline⟩
  by_cases htok : pyStrip line.data = []
  · rw [if_pos htok] at hline
    exact absurd hline (by simp)
  · rw [if_neg htok] at hline
    exact strptimeTS_range hline

/-! ## C5 lemmas: ISO calendar ranges -/

theorem cumDays_le (y : Nat) : ∀ m, cumDays y m ≤ 31 * m
  | 0 => le_refl 0
  | m + 1 => by
    have h1 := cumDays_le y m
    have h2 : daysInMonth y (m + 1) ≤ 31 := by
      unfold daysInMonth
      split
      · split <;> norm_num
      · split <;> norm_num
    simp only [cumDays]
    omega

theorem isoWeeksInYear_le (y : Nat) : isoWeeksInYear y ≤ 53 := by
  unfold isoWeeksInYear
  split <;> norm_num

theorem isocalendar_fst_cases (y m d : Nat) :
    (isocalendar y m d).1 = y - 1 ∨ (isocalendar y m d).1 = y ∨
      (isocalendar y m d).1 = y + 1 := by
  unfold isocalendar
  dsimp only
  split
  · exact Or.inl rfl
  · split
    · exact Or.inr (Or.inr rfl)
    · exact Or.inr (Or.inl rfl)

theorem isocalendar_snd_le {y m d : Nat} (hm : m ≤ 12) (hd : d ≤ 31) :
    (isocalendar y m d).2 ≤ 99 := by
  have hN : dayOfYear y m d ≤ 372 := by
    unfold dayOfYear
    have := cumDays_le y (m - 1)
    omega
  unfold isocalendar
  dsimp only
  split
  · exact le_trans (isoWeeksInYear_le _) (by norm_num)
  · split
    · norm_num
    · have hb : 10 + dayOfYear y m d - isoWeekday y m d ≤ 382 := by omega
      have : (10 + dayOfYear y m d - isoWeekday y m d) / 7 ≤ 382 / 7 :=
        Nat.div_le_div_right hb
      have h54 : (382 : Nat) / 7 = 54 := by norm_num
      dsimp only
      omega

/-! ## C5 lemmas: counter and slice structure -/

theorem counterAdd_forall {P : String × Nat → Prop} :
    ∀ {l : List (String × Nat)} {k : String},
    (∀ e ∈ l, P e) → (∀ s n, P (s, n) → P (s, n + 1)) → P (k, 1) →
    ∀ e ∈ counterAdd l k, P e := by
  intro l
  induction l with
  | nil =>
    intro k _ _ hnew e he
    simp only [counterAdd, List.mem_singleton] at he
    subst he
    exact hnew
  | cons p rest ih =>
    intro k hl hbump hnew e he
    obtain ⟨k', n⟩ := p
    unfold counterAdd at he
    by_cases hk : (k' == k) = true
    · rw [if_pos hk] at he
      rcases List.mem_cons.mp he with h | h
      · subst h
        exact hbump k' n (hl (k', n) (List.mem_cons_self _ _))
      · exact hl e (List.mem_cons_of_mem _ h)
    · rw [if_neg hk] at he
      rcases List.mem_cons.mp he with h | h
      · subst h
        exact hl _ (List.mem_cons_self _ _)
      · exact ih (fun x hx => hl x (List.mem_cons_of_mem _ hx)) hbump hnew e h

theorem completionCounts_entries {out span : String} :
    ∀ e ∈ completionCounts out span,
      1 ≤ e.2 ∧ ∃ dt ∈ parsedStamps out, e.1 = bucketKey span dt := by
  have gen : ∀ (L : List PyDT) (acc : List (String × Nat)),
      (∀ dt ∈ L, dt ∈ parsedStamps out) →
      (∀ e ∈ acc, 1 ≤ e.2 ∧ ∃ dt ∈ parsedStamps out,
        e.1 = bucketKey span dt) →
      ∀ e ∈ L.foldl (fun counts dt => counterAdd counts (bucketKey span dt))
          acc,
        1 ≤ e.2 ∧ ∃ dt ∈ parsedStamps out, e.1 = bucketKey span dt := by
    intro L
    induction L with
    | nil =>
      intro acc _ hacc
      simpa using hacc
    | cons dt L ih =>
      intro acc hL hacc
      simp only [List.foldl_cons]
      refine ih _ (fun x hx => hL x (List.mem_cons_of_mem _ hx)) ?_
      exact counterAdd_forall hacc (fun s n hp => ⟨by omega, hp.2⟩)
        ⟨le_refl 1, dt, hL dt (List.mem_cons_self _ _), rfl⟩
  exact gen (parsedStamps out) [] (fun _ h => h) (by simp)

theorem pySliceLast_suffix {α : Type} (l : List α) (count : Nat) :
    ∃ pre, pre ++ pySliceLast l count = l := by
  unfold pySliceLast
  by_cases h : count = 0
  · rw [if_pos h]
    exact ⟨[], rfl⟩
  · rw [if_neg h]
    exact ⟨l.take (l.length - count), List.take_append_drop _ l⟩

theorem pySliceLast_length {α : Type} (l : List α) {count : Nat}
    (h : 1 ≤ count) : (pySliceLast l count).length = min count l.length := by
  unfold pySliceLast
  rw [if_neg (by omega), List.length_drop]
  omega

theorem pySliceLast_subset {α : Type} {l : List α} {count : Nat} {e : α}
    (h : e ∈ pySliceLast l count) : e ∈ l := by
  rcases pySliceLast_suffix l count with ⟨pre, hpre⟩
  rw [← hpre]
  exact List.mem_append_right pre h

theorem recent_completions_ok {out span : String} {count : Nat}
    {r : List (String × Nat)}
    (h : recent_completions true out span count = Except.ok r) :
    (span = "day" ∨ span = "week") ∧
      r = pySliceLast
        (List.insertionSort keyLE (completionCounts out span)) count := by
  unfold recent_completions at h
  rw [if_neg (by simp)] at h
  by_cases hspan : (span ≠ "day" && span ≠ "week") = true
  · rw [if_pos hspan] at h
    exact absurd h (by simp)
  · rw [if_neg hspan] at h
    simp only [Except.ok.injEq] at h
    refine ⟨?_, h.symm⟩
    simp only [Bool.and_eq_true, decide_eq_true_eq, ne_eq] at hspan
    by_cases hd : span = "day"
    · exact Or.inl hd
    · right
      by_contra hw
      exact hspan ⟨fun hcon => hd (by simpa using hcon),
        fun hcon => hw (by simpa using hcon)⟩

/-! ## C5: completion histogram -/

/-- C5 counterexample: with `count = 0` the Python slice `items[-count:]`
is `items[-0:] = items[0:]` — the WHOLE list — so the result is NOT
truncated to the most recent 0 buckets (which would be empty): a single
completion on 2099-01-02 yields one bucket, not zero. -/
theorem c5_counterexample :
    recent_completions true "2099-01-02T03:04:05\n" "day" 0 =
      Except.ok [("2099-01-02", 1)] ∧
    (Except.ok [("2099-01-02", 1)] :
      Except RecentErr (List (String × Nat))) ≠ Except.ok [] := by
  refine ⟨rfl, ?_⟩
  intro hcon
  simp at hcon

/-- C5 (amended): for `count ≥ 1`, `recent_completions` buckets each
parsed completion timestamp of the sacct output (the sacct command itself
is filtered to completed jobs after the trailing window start of
`windowDays span count` days) by calendar day or ISO week, and returns
the FINAL `count`-bounded slice of the counter items sorted in ascending
key order; every returned bucket has count ≥ 1 and stems from at least
one parsed timestamp (periods with zero completions produce no bucket);
and whenever all parsed completion years are four-digit (1001–9998) the
returned buckets are chronologically nondecreasing — for day span by
(year, month, day) and for week span by (ISO year, ISO week) — so the
slice retains the most recent buckets.  (For `count = 0` the slice
`items[-0:]` returns all buckets instead; see the counterexample.) -/
theorem c5_recent_completions :
    (∀ (out span : String) (count : Nat) (r : List (String × Nat)),
      1 ≤ count →
      recent_completions true out span count = Except.ok r →
      ∃ pre, pre ++ r =
          List.insertionSort keyLE (completionCounts out span) ∧
        r.length = min count (completionCounts out span).length) ∧
    (∀ (out span : String) (count : Nat) (r : List (String × Nat)),
      recent_completions true out span count = Except.ok r →
      ∀ e ∈ r, 1 ≤ e.2 ∧ ∃ dt ∈ parsedStamps out, e.1 = bucketKey span dt) ∧
    (∀ (out span : String) (count : Nat) (r : List (String × Nat)),
      recent_completions true out span count = Except.ok r →
      yearsInRange out →
      r.Pairwise (fun a b =>
        ∀ dta ∈ parsedStamps out, ∀ dtb ∈ parsedStamps out,
          a.1 = bucketKey span dta → b.1 = bucketKey span dtb →
          chronLe span dta dtb)) ∧
    (∀ count : Nat, windowDays "day" count = count ∧
      windowDays "week" count = count * 7) := by
  refine ⟨?_, ?_, ?_, fun count => ⟨rfl, rfl⟩⟩
  · intro out span count r hc h
    rcases recent_completions_ok h with ⟨_, hr⟩
    subst hr
    rcases pySliceLast_suffix
      (List.insertionSort keyLE (completionCounts out span)) count with
      ⟨pre, hpre⟩
    refine ⟨pre, hpre, ?_⟩
    have h1 := pySliceLast_length
      (List.insertionSort keyLE (completionCounts out span)) hc
    rw [(List.perm_insertionSort keyLE (completionCounts out span)).length_eq]
      at h1
    exact h1
  · intro out span count r h e he
    rcases recent_completions_ok h with ⟨_, hr⟩
    subst hr
    have h1 : e ∈ List.insertionSort keyLE (completionCounts out span) :=
      pySliceLast_subset he
    have h2 : e ∈ completionCounts out span :=
      ((List.perm_insertionSort keyLE _).mem_iff).mp h1
    exact completionCounts_entries e h2
  · intro out span count r h hyears
    rcases recent_completions_ok h with ⟨_, hr⟩
    have hsorted :
        (List.insertionSort keyLE (completionCounts out span)).Pairwise
          keyLE :=
      List.sorted_insertionSort keyLE _
    rcases pySliceLast_suffix
      (List.insertionSort keyLE (completionCounts out span)) count with
      ⟨pre, hpre⟩
    rw [← hr] at hpre
    rw [← hpre] at hsorted
    have hrp : r.Pairwise keyLE := (List.pairwise_append.mp hsorted).2.1
    refine hrp.imp ?_
    intro a b hab dta hdta dtb hdtb hka hkb
    obtain ⟨hya1, hya2⟩ := hyears dta hdta
    obtain ⟨hyb1, hyb2⟩ := hyears dtb hdtb
    obtain ⟨_, hma1, hma2, hda1, hda2⟩ := parsedStamps_range hdta
    obtain ⟨_, hmb1, hmb2, hdb1, hdb2⟩ := parsedStamps_range hdtb
    unfold chronLe
    by_cases hweek : span = "week"
    · rw [if_pos hweek]
      intro hlt
      have hka' : a.1.data = weekKeyT (isocalendar dta.y dta.mo dta.d) := by
        rw [hka]
        unfold bucketKey
        rw [if_pos hweek]
      have hkb' : b.1.data = weekKeyT (isocalendar dtb.y dtb.mo dtb.d) := by
        rw [hkb]
        unfold bucketKey
        rw [if_pos hweek]
      have hia := isocalendar_fst_cases dta.y dta.mo dta.d
      have hib := isocalendar_fst_cases dtb.y dtb.mo dtb.d
      have hwa := @isocalendar_snd_le dta.y dta.mo dta.d hma2 hda2
      have hwb := @isocalendar_snd_le dtb.y dtb.mo dtb.d hmb2 hdb2
      have hlt2 := @weekKeyT_lt (isocalendar dtb.y dtb.mo dtb.d)
        (isocalendar dta.y dta.mo dta.d)
        (by rcases hib with hc | hc | hc <;> omega)
        (by rcases hib with hc | hc | hc <;> omega)
        (by rcases hia with hc | hc | hc <;> omega)
        (by rcases hia with hc | hc | hc <;> omega)
        hwb hwa hlt
      rw [← hkb', ← hka'] at hlt2
      unfold keyLE at hab
      rw [hlt2] at hab
      exact absurd hab (by simp)
    · rw [if_neg hweek]
      intro hlt
      have hka' : a.1.data = dayKeyT (dta.y, dta.mo, dta.d) := by
        rw [hka]
        unfold bucketKey
        rw [if_neg hweek]
      have hkb' : b.1.data = dayKeyT (dtb.y, dtb.mo, dtb.d) := by
        rw [hkb]
        unfold bucketKey
        rw [if_neg hweek]
      have hlt2 := @dayKeyT_lt (dtb.y, dtb.mo, dtb.d) (dta.y, dta.mo, dta.d)
        (by dsimp only; omega) (by dsimp only; omega)
        (by dsimp only; omega) (by dsimp only; omega)
        (by dsimp only; omega) (by dsimp only; omega)
        (by dsimp only; omega) (by dsimp only; omega) hlt
      rw [← hkb', ← hka'] at hlt2
      unfold keyLE at hab
      rw [hlt2] at hab
      exact absurd hab (by simp)

/-- C5 witness: the amended theorem applied to a concrete three-day
fixture with `count = 2`: the result is a two-element suffix of the
sorted counter items, and each returned bucket counts at least one
parsed completion. -/
theorem c5_witness :
    (∃ pre, pre ++ [("2023-09-05", 2), ("2023-09-07", 1)] =
        List.insertionSort keyLE (completionCounts
          "2023-09-05T10:00:00\n2023-09-03T09:00:00\n2023-09-05T11:11:11\n2023-09-07T01:02:03\n"
          "day") ∧
      ([("2023-09-05", 2), ("2023-09-07", 1)] :
        List (String × Nat)).length =
        min 2 (completionCounts
          "2023-09-05T10:00:00\n2023-09-03T09:00:00\n2023-09-05T11:11:11\n2023-09-07T01:02:03\n"
          "day").length) ∧
    (1 ≤ (("2023-09-07", 1) : String × Nat).2 ∧
      ∃ dt ∈ parsedStamps
        "2023-09-05T10:00:00\n2023-09-03T09:00:00\n2023-09-05T11:11:11\n2023-09-07T01:02:03\n",
        (("2023-09-07", 1) : String × Nat).1 = bucketKey "day" dt) :=
  ⟨c5_recent_completions.1
      "2023-09-05T10:00:00\n2023-09-03T09:00:00\n2023-09-05T11:11:11\n2023-09-07T01:02:03\n"
      "day" 2 [("2023-09-05", 2), ("2023-09-07", 1)] (by norm_num) rfl,
   c5_recent_completions.2.1
      "2023-09-05T10:00:00\n2023-09-03T09:00:00\n2023-09-05T11:11:11\n2023-09-07T01:02:03\n"
      "day" 2 [("2023-09-05", 2), ("2023-09-07", 1)] rfl
      ("2023-09-07", 1) (by decide)⟩
